import Mathlib

/-!
# A verification model of the dcorm object-relational mapper

This file embeds the core of `dcorm` (src/dcorm/dcorm.py, src/dcorm/weak_refs.py,
src/dcorm/types.py) into Lean and proves properties of the embedding.

Modelling conventions:
* Python classes are identified by their names (`ClsName`); the dataclass
  definitions visible to `get_type_hints` are a map from class name to field list.
* Python object identity is a natural number (`ObjId`), mirroring `id()`.
* The mutable interpreter state relevant to the ORM (the registry of
  `registered_classes`, the `known_objects` state store, the object heap and the
  SQLite database) is one explicit state record threaded through the operations.
* Machine-level values that the ORM merely stores and retrieves unchanged
  (Python floats bound to SQLite REAL, byte strings bound to BLOB) are opaque
  tokens with decidable equality.
* Timestamps are modelled as timezone-aware instants (an integer); the external
  ISO-8601 codec of the `datetime` library is modelled symbolically: the TEXT
  cell produced for a date or timestamp is a dedicated constructor carrying the
  encoded value, which is exactly the injectivity the real codec provides.
* Code that raises exceptions is modelled with `Except DErr`; code that can
  diverge (cascading insert on a cyclic object graph) takes fuel and returns
  `Option`.
-/

/-- Python class names, used as identity of type objects and as table names. -/
abbrev ClsName := String

/-- Python object identity, as returned by `id()`. -/
abbrev ObjId := Nat

/-- Opaque token standing for a Python `float` payload.  dcorm never computes
with floats: they are bound to a REAL column and read back unchanged, so only
decidable equality of payloads is needed. -/
structure PyFloat where
  bits : Nat
deriving DecidableEq, Repr

/-- Opaque token standing for a Python `bytes` payload stored in a BLOB column. -/
structure PyBlob where
  raw : Nat
deriving DecidableEq, Repr

/-- A `datetime.date`, identified by its ordinal day.  Only the identity of the
value matters to dcorm: it is ISO-encoded on write and decoded on read. -/
structure PyDate where
  ordinal : Nat
deriving DecidableEq, Repr

/-- A timezone-aware `datetime.datetime`, identified by the instant it denotes
(minutes since the epoch).  `astimezone` calls convert between zone renderings
of the same instant, and aware datetimes compare equal exactly when their
instants coincide, so the instant is the whole observable content. -/
structure PyDatetime where
  instant : Int
deriving DecidableEq, Repr

/-- The non-null \x28unwrapped\x29 part of a field annotation, i.e. what
`resolve_type` returns: a builtin scalar class, a (data)class identified by
name, the `KeyType` class, or some other unmapped type. -/
inductive NTy where
  | nInt
  | nFloat
  | nStr
  | nDate
  | nDatetime
  | nCls (c : ClsName)
  | nKeyType
  | nOther (tag : String)
deriving DecidableEq, Repr

/-- A declared field annotation: the non-null type, plus whether the annotation
was the two-way optional union `T | None` / `Optional[T]`.  Python `is`
comparison of two such annotation objects agrees with structural equality for
the forms dcorm handles (class objects are unique, `typing` caches `Optional`
subscriptions). -/
structure PyT where
  nty : NTy
  opt : Bool
deriving DecidableEq, Repr

/-- Runtime values a Python attribute can hold in dcorm flows. -/
inductive Val where
  | vNone
  | vInt (n : Int)
  | vFloat (x : PyFloat)
  | vStr (s : String)
  | vDate (d : PyDate)
  | vDatetime (t : PyDatetime)
  | vBlob (b : PyBlob)
  | vKey (k : Nat)
  | vObj (o : ObjId)
deriving DecidableEq, Repr

/-- A value stored in a SQLite cell.  `sqlDateText d` / `sqlDatetimeText i` are
the TEXT cells holding the ISO-8601 rendering of date `d` resp. of the instant
`i` normalized to UTC; keeping the encoded value in the constructor models the
injective external codec (`isoformat` / `fromisoformat`). -/
inductive SQLVal where
  | sqlNull
  | sqlInt (n : Int)
  | sqlReal (x : PyFloat)
  | sqlText (s : String)
  | sqlDateText (d : PyDate)
  | sqlDatetimeText (i : Int)
  | sqlBlob (b : PyBlob)
deriving DecidableEq, Repr

/-- `Field` of src/dcorm/types.py: name, declared annotation and its non-null
part; `pyDefault` records the class attribute a dataclass default leaves on the
class (used by `_add_descriptors_if_missing` to detect and carry defaults). -/
structure FieldT where
  name : String
  ty : PyT
  pyDefault : Option Val
deriving DecidableEq, Repr

/-- `non_null_type` of a field (what `resolve_type` computed). -/
def FieldT.nonNull (f : FieldT) : NTy := f.ty.nty

/-- The `SQLITE_TYPE` defaultdict of src/dcorm/dcorm.py: its explicit keys are
`int`, `float`, `str`, `dt.date` and `dt.datetime`; every other type object
(including `KeyType`, which is a distinct class from `int`) falls through to
the `"BLOB"` default. -/
def SQLITE_TYPE : NTy → String
  | .nInt => "INTEGER"
  | .nFloat => "REAL"
  | .nStr => "TEXT"
  | .nDate => "TEXT"
  | .nDatetime => "TEXT"
  | .nCls _ => "BLOB"
  | .nKeyType => "BLOB"
  | .nOther _ => "BLOB"

section AssocHelpers

/-- Lookup in an association list (Python `dict.get` keyed by insertion order,
first match). -/
def alookup {κ α : Type} [DecidableEq κ] (l : List (κ × α)) (k : κ) : Option α :=
  match l.find? (fun p => p.1 = k) with
  | some p => some p.2
  | none => none

/-- `d[k] = v` on an association list: replace the existing binding in place,
else append (Python dict update semantics). -/
def aset {κ α : Type} [DecidableEq κ] (l : List (κ × α)) (k : κ) (v : α) : List (κ × α) :=
  match l with
  | [] => [(k, v)]
  | (k', v') :: rest => if k' = k then (k, v) :: rest else (k', v') :: aset rest k v

/-- `del d[k]` on an association list (first binding removed). -/
def adel {κ α : Type} [DecidableEq κ] (l : List (κ × α)) (k : κ) : List (κ × α) :=
  match l with
  | [] => []
  | (k', v') :: rest => if k' = k then rest else (k', v') :: adel rest k

/-- Pointwise update of a function-typed finite map. -/
def upd {β : Type} (f : String → Option β) (k : String) (v : β) : String → Option β :=
  fun x => if x = k then some v else f x

/-- Pointwise update of an `ObjId`-keyed map. -/
def updN {β : Type} (f : Nat → Option β) (k : Nat) (v : β) : Nat → Option β :=
  fun x => if x = k then some v else f x

theorem alookup_aset_self {κ α : Type} [DecidableEq κ] (l : List (κ × α)) (k : κ) (v : α) :
    alookup (aset l k v) k = some v := by
  induction l with
  | nil => simp [aset, alookup, List.find?]
  | cons p rest ih =>
    obtain ⟨k', v'⟩ := p
    by_cases h : k' = k
    · simp [aset, h, alookup, List.find?]
    · simpa [aset, h, alookup, List.find?] using ih

theorem alookup_aset_other {κ α : Type} [DecidableEq κ] (l : List (κ × α)) (k k' : κ) (v : α)
    (h : k' ≠ k) : alookup (aset l k v) k' = alookup l k' := by
  induction l with
  | nil =>
    simp [aset, alookup, List.find?, Ne.symm h]
  | cons p rest ih =>
    obtain ⟨k0, v0⟩ := p
    by_cases h0 : k0 = k
    · subst h0
      simp [aset, alookup, List.find?, Ne.symm h]
    · by_cases h1 : k0 = k'
      · subst h1
        simp [aset, h0, alookup, List.find?]
      · simpa [aset, h0, alookup, List.find?, h1] using ih

end AssocHelpers

/-- Exception classes raised by dcorm code paths. -/
inductive DErr where
  | typeErr
  | valueErr
  | keyErr
  | runtimeErr
  | attrErr
  | stopIter
  | dbErr
deriving DecidableEq, Repr

/-- A live Python object: its class and its `__dict__` (the attributes stored
directly on the instance; attributes governed by a `Reference` descriptor live
in the instance's dcorm state record instead). -/
structure Obj where
  cls : ClsName
  dict : List (String × Val)
deriving DecidableEq, Repr

/-- The per-instance record held in `known_objects`: the `__self__row_id__`
entry plus the per-field overrides managed by `Reference` descriptors. -/
structure StateRec where
  rowid : Option Nat
  overrides : List (String × Val)
deriving DecidableEq, Repr

/-- One SQLite table: the next rowid the engine will assign, and the stored
rows as (rowid, cells) in insertion order. -/
structure Table where
  nextRow : Nat
  rows : List (Nat × List SQLVal)
deriving DecidableEq, Repr

/-- The interpreter/ORM state threaded through all modelled operations.

* `classes` — the dataclass definitions reachable by `get_type_hints` (static);
* `registered` — `ORM.registered_classes`, mapping a registered class to its
  `has_descriptors` flag;
* `descriptors` — whether `Reference` descriptors are currently set as class
  attributes on the class's reference fields (survives re-registration);
* `installCount` — specification instrumentation: how many times the install
  loop of `_add_descriptors_if_missing` has run `setattr` passes for the class;
* `heap`, `nextObj` — live Python objects by identity, and the next fresh id;
* `known` — `ORM.known_objects` (entries for live instances);
* `db` — the SQLite database, one `Table` per table name;
* `insLog` — specification instrumentation: every executed `INSERT`, as
  (table, assigned rowid, inserted instance). -/
structure ORMState where
  classes : ClsName → Option (List FieldT)
  registered : ClsName → Option Bool
  descriptors : ClsName → Bool
  installCount : ClsName → Nat
  heap : ObjId → Option Obj
  nextObj : ObjId
  known : ObjId → Option StateRec
  db : String → Option Table
  insLog : List (String × Nat × ObjId)

/-- `ORM.has_orm` on a non-null field type: true iff the type is a class
present in `registered_classes`. -/
def hasOrmN (s : ORMState) (t : NTy) : Bool :=
  match t with
  | .nCls c => (s.registered c).isSome
  | _ => false

/-- `ORM.orm_dataclass`: registers the class with `has_descriptors = False`
(and installs the (de)serialization hooks, reflected in the registration checks
of the encode/decode functions below).  Registering an already-registered class
overwrites its entry, resetting the flag. -/
def orm_dataclass (s : ORMState) (c : ClsName) : ORMState :=
  { s with registered := upd s.registered c false }

/-- `get_instance_fields` applied to a class: `TypeError` when the class is not
a dataclass, `ValueError` when it has no fields; the table name is the class
name. -/
def get_instance_fieldsC (s : ORMState) (c : ClsName) :
    Except DErr (String × List FieldT) :=
  match s.classes c with
  | none => .error .typeErr
  | some fields => if fields.isEmpty then .error .valueErr else .ok (c, fields)

/-- `ORM._add_descriptors_if_missing`.  When the registry flag is clear and the
class has reference fields, the install loop runs.  If `Reference` descriptors
are already present on the class (possible when the class was re-registered
after a first resolution), the loop's `hasattr(cls, field.name)` evaluates the
installed descriptor with `instance = None`, and `Reference.__get__` calls
`_get_dcorm_state(None)`, whose `WeakKeyDict.__setitem__` calls
`weakref.ref(None, ...)`, which raises `TypeError`; otherwise the descriptors
are installed and the flag set. -/
def add_descriptors_if_missing (s : ORMState) (c : ClsName) (fields : List FieldT) :
    Except DErr ORMState :=
  match s.registered c with
  | none => .error .keyErr
  | some true => .ok s
  | some false =>
    if fields.any fun f => hasOrmN s f.nonNull then
      if s.descriptors c then
        .error .typeErr
      else
        .ok { s with
              descriptors := fun x => if x = c then true else s.descriptors x,
              installCount := fun x => if x = c then s.installCount x + 1 else s.installCount x,
              registered := upd s.registered c true }
    else
      .ok { s with registered := upd s.registered c true }

/-- `ORM._get_class_fields` on a class name: registration check, field
reflection, then deferred descriptor installation. -/
def get_class_fieldsC (s : ORMState) (c : ClsName) :
    Except DErr (ORMState × String × List FieldT) :=
  match s.registered c with
  | none => .error .typeErr
  | some _ =>
    match get_instance_fieldsC s c with
    | .error e => .error e
    | .ok (table, fields) =>
      match add_descriptors_if_missing s c fields with
      | .error e => .error e
      | .ok s' => .ok (s', table, fields)

/-- `ORM._get_class_fields` on an arbitrary annotation object (as reached from
`Select._get_join_table`): a non-class object (an `Optional[...]` annotation)
fails the `isinstance(cls, type)` check with `TypeError`; a class object that
is not registered fails the registration check with `TypeError`. -/
def get_class_fieldsT (s : ORMState) (t : PyT) :
    Except DErr (ORMState × String × List FieldT) :=
  if t.opt then .error .typeErr
  else
    match t.nty with
    | .nCls c => get_class_fieldsC s c
    | _ => .error .typeErr

/-- `map_type` inside `ORM.create`: a field type registered with the ORM is
replaced by `KeyType` before the column-type lookup. -/
def map_type (s : ORMState) (t : NTy) : NTy :=
  if hasOrmN s t then .nKeyType else t

/-- The column type `ORM.create` declares for a non-null field type:
`SQLITE_TYPE[map_type(field_type)]`. -/
def columnType (s : ORMState) (t : NTy) : String :=
  SQLITE_TYPE (map_type s t)

/-- One entry of `column_specs` in `ORM.create`. -/
def column_spec (s : ORMState) (f : FieldT) : String :=
  f.name ++ " " ++ columnType s f.nonNull

/-- `ORM._get_dcorm_state`: look up the instance in `known_objects`,
auto-creating a fresh state record (with no row id) when absent. -/
def get_dcorm_state (s : ORMState) (o : ObjId) : ORMState × StateRec :=
  match s.known o with
  | some r => (s, r)
  | none =>
    let r : StateRec := { rowid := none, overrides := [] }
    ({ s with known := updN s.known o r }, r)

/-- `state[SELF_ROW_ID] = row_id` after a `_get_dcorm_state` call. -/
def set_self_rowid (s : ORMState) (o : ObjId) (k : Nat) : ORMState :=
  let (s1, r) := get_dcorm_state s o
  { s1 with known := updN s1.known o { r with rowid := some k } }

/-- `ORM.get_rowid`: read the instance's row id through `_get_dcorm_state`
(auto-creating its state record), raising `ValueError` when the row id is
absent. -/
def get_rowidM (s : ORMState) (o : ObjId) : ORMState × Except DErr Nat :=
  let (s1, r) := get_dcorm_state s o
  match r.rowid with
  | none => (s1, .error .valueErr)
  | some k => (s1, .ok k)

/-- `ORM.delete_by_id`: resolve the class, then `DELETE ... WHERE _rowid_ = ?`. -/
def delete_by_idM (s : ORMState) (c : ClsName) (k : Nat) :
    ORMState × Except DErr Unit :=
  match get_class_fieldsC s c with
  | .error e => (s, .error e)
  | .ok (s1, table, _) =>
    match s1.db table with
    | none => (s1, .error .dbErr)
    | some tbl =>
      let tbl' : Table := { tbl with rows := tbl.rows.filter fun r => r.1 ≠ k }
      ({ s1 with db := upd s1.db table tbl' }, .ok ())

/-- `ORM.delete`: `delete_by_id(type(instance), get_rowid(instance))`.  The
row-id lookup runs first; its `ValueError` aborts the call before any SQL. -/
def deleteM (s : ORMState) (o : ObjId) : ORMState × Except DErr Unit :=
  match s.heap o with
  | none => (s, .error .attrErr)
  | some obj =>
    match get_rowidM s o with
    | (s1, .error e) => (s1, .error e)
    | (s1, .ok k) => delete_by_idM s1 obj.cls k

/-- The SQLite parameter binding applied to one raw value of an INSERT/UPDATE
tuple.  `int` (and its subclass `KeyType`), `float`, `str`, `bytes` and `None`
bind natively.

Modelled from the spec: the `date`/`datetime` adapters that
`register_converters` (dcorm/converters.py, absent from the sources) installs —
per the spec, dates bind as canonical ISO-8601 date text and timestamps as
ISO-8601 text normalized to UTC, matching the in-file unstructure hooks of
`ORM.__init__`.  A value of any other type (here: a dataclass instance reaching
the driver raw) is rejected by the driver. -/
def encodeVal : Val → Option SQLVal
  | .vNone => some .sqlNull
  | .vInt n => some (.sqlInt n)
  | .vFloat x => some (.sqlReal x)
  | .vStr s => some (.sqlText s)
  | .vDate d => some (.sqlDateText d)
  | .vDatetime t => some (.sqlDatetimeText t.instant)
  | .vBlob b => some (.sqlBlob b)
  | .vKey k => some (.sqlInt k)
  | .vObj _ => none

/-- Binding of a whole parameter tuple. -/
def encodeRow : List Val → Option (List SQLVal)
  | [] => some []
  | v :: vs =>
    match encodeVal v, encodeRow vs with
    | some c, some cs => some (c :: cs)
    | _, _ => none

/-- `sql_converter.structure(datum, non_null_type)`: the structure hooks of
`ORM.__init__` plus the per-class hook `lambda v, _: KeyType(v)` registered by
`orm_dataclass`.  Dates decode with `date.fromisoformat`; timestamps with
`datetime.fromisoformat(v).astimezone()`, i.e. the same instant rendered in the
local zone.  Unmapped types have no hook and fail to structure. -/
def structureN (s : ORMState) (cell : SQLVal) : NTy → Option Val
  | .nInt => match cell with | .sqlInt n => some (.vInt n) | _ => none
  | .nFloat => match cell with | .sqlReal x => some (.vFloat x) | _ => none
  | .nStr => match cell with | .sqlText str => some (.vStr str) | _ => none
  | .nDate => match cell with | .sqlDateText d => some (.vDate d) | _ => none
  | .nDatetime => match cell with | .sqlDatetimeText i => some (.vDatetime ⟨i⟩) | _ => none
  | .nCls c =>
    if (s.registered c).isSome then
      match cell with | .sqlInt n => some (.vKey n.toNat) | _ => none
    else none
  | .nKeyType => none
  | .nOther _ => none

/-- `sql_converter.structure(datum, declared_hint)`: cattrs resolves a two-way
optional by mapping `None` to `None` and structuring anything else at the
wrapped type. -/
def structureVal (s : ORMState) (cell : SQLVal) (t : PyT) : Option Val :=
  if t.opt then
    match cell with
    | .sqlNull => some .vNone
    | _ => structureN s cell t.nty
  else structureN s cell t.nty

/-- Whether the field's non-null type is a registered record type (so a
`Reference` descriptor governs it once descriptors are installed). -/
def is_ref_field (s : ORMState) (f : FieldT) : Bool :=
  hasOrmN s f.nonNull

/-- `Reference.fix_preexisting`: if the instance's `__dict__` still holds a
non-`None` attribute under the descriptor's name (set before the descriptor
existed), migrate it into the dcorm state record and delete it from
`__dict__`. -/
def fix_preexisting (s : ORMState) (o : ObjId) (name : String) : ORMState :=
  match s.heap o with
  | none => s
  | some obj =>
    match alookup obj.dict name with
    | some v =>
      if v = .vNone then s
      else
        let p := get_dcorm_state s o
        { p.1 with
          known := updN p.1.known o { p.2 with overrides := aset p.2.overrides name v },
          heap := updN p.1.heap o { obj with dict := adel obj.dict name } }
    | none => s

/-- `Reference.__set__`: fetch-or-create the instance's state record, migrate a
pre-existing plain attribute, then store the raw value as the field's
override. -/
def ref_set (s : ORMState) (o : ObjId) (name : String) (v : Val) : ORMState :=
  let s1 := (get_dcorm_state s o).1
  let s2 := fix_preexisting s1 o name
  let p := get_dcorm_state s2 o
  { p.1 with known := updN p.1.known o { p.2 with overrides := aset p.2.overrides name v } }

/-- Python attribute assignment `instance.f = v`: routed through
`Reference.__set__` when the class has an installed descriptor for a reference
field, otherwise stored in the instance `__dict__`. -/
def setattrM (s : ORMState) (o : ObjId) (f : FieldT) (v : Val) : ORMState :=
  match s.heap o with
  | none => s
  | some obj =>
    if s.descriptors obj.cls && is_ref_field s f then ref_set s o f.name v
    else { s with heap := updN s.heap o { obj with dict := aset obj.dict f.name v } }

/-- Assign the dataclass's fields in declaration order (the body of the
generated `__init__` running `self.f = v` for each field). -/
def setFields (s : ORMState) (o : ObjId) : List FieldT → List Val → ORMState
  | [], _ => s
  | _, [] => s
  | f :: fs, v :: vs => setFields (setattrM s o f v) o fs vs

/-- `cls(*converted)`: allocate a fresh instance of `c` and run the dataclass
`__init__`, each assignment going through `setattrM`. -/
def constructM (s : ORMState) (c : ClsName) (fields : List FieldT) (vals : List Val) :
    ORMState × ObjId :=
  let o := s.nextObj
  let s1 : ORMState :=
    { s with heap := updN s.heap o { cls := c, dict := [] }, nextObj := o + 1 }
  (setFields s1 o fields vals, o)

/-- Field-wise structuring of one fetched row's non-rowid cells (the `converted`
list in `_query_results_to_instances`; `none` models a cattrs structure
failure, or an arity mismatch that would fail instance construction). -/
def structureRow (s : ORMState) : List SQLVal → List FieldT → Option (List Val)
  | [], [] => some []
  | cell :: cs, f :: fs =>
    match structureVal s cell f.ty, structureRow s cs fs with
    | some v, some vs => some (v :: vs)
    | _, _ => none
  | _, _ => none

/-- The per-row body of `ORM._query_results_to_instances`: structure each cell
at the field's declared hint, construct the instance, then record the fetched
rowid in its state. -/
def rehydrateRow (s : ORMState) (c : ClsName) (fields : List FieldT) (rowid : Nat)
    (cells : List SQLVal) : Option (ORMState × ObjId) :=
  match structureRow s cells fields with
  | none => none
  | some vals =>
    let p := constructM s c fields vals
    some (set_self_rowid p.1 p.2 rowid, p.2)

/-- `ORM.get_by_id`: resolve the class, `SELECT ... WHERE _rowid_ = ?`, and
rehydrate the first returned row; `next(iter(...))` raises `StopIteration` when
no row matches. -/
def get_by_idM (s : ORMState) (c : ClsName) (k : Nat) :
    Except DErr (ORMState × ObjId) :=
  match get_class_fieldsC s c with
  | .error e => .error e
  | .ok (s1, table, fields) =>
    match s1.db table with
    | none => .error .dbErr
    | some tbl =>
      match (tbl.rows.filter fun r => r.1 = k).head? with
      | none => .error .stopIter
      | some (rid, cells) =>
        match rehydrateRow s1 c fields rid cells with
        | none => .error .valueErr
        | some (s2, o) => .ok (s2, o)

/-- Rehydration of a full result set, in row order (the forced form of the
generator `_query_results_to_instances` returns). -/
def rehydrateRows (s : ORMState) (c : ClsName) (fields : List FieldT) :
    List (Nat × List SQLVal) → Option (ORMState × List ObjId)
  | [] => some (s, [])
  | (rid, cells) :: rest =>
    match rehydrateRow s c fields rid cells with
    | none => none
    | some (s1, o) =>
      match rehydrateRows s1 c fields rest with
      | none => none
      | some (s2, os) => some (s2, o :: os)

/-- `ORM.get_all`: `SELECT` every row of the class's table and rehydrate each. -/
def get_allM (s : ORMState) (c : ClsName) :
    Except DErr (ORMState × List ObjId) :=
  match get_class_fieldsC s c with
  | .error e => .error e
  | .ok (s1, table, fields) =>
    match s1.db table with
    | none => .error .dbErr
    | some tbl =>
      match rehydrateRows s1 c fields tbl.rows with
      | none => .error .valueErr
      | some (s2, os) => .ok (s2, os)

/-- `Reference.__get__`: fetch-or-create the state record, migrate any
pre-existing plain attribute, read the override (falling back to the
install-time default if one exists, else `KeyError`); a `KeyType` value is an
unresolved foreign key and is dereferenced through a synchronous
`get_by_id` — whose result is returned but not written back. -/
def ref_get (s : ORMState) (o : ObjId) (f : FieldT) (target : ClsName) :
    Except DErr (ORMState × Val) :=
  let s1 := (get_dcorm_state s o).1
  let s2 := fix_preexisting s1 o f.name
  let r := (get_dcorm_state s2 o).2
  let value_or_key : Except DErr Val :=
    match f.pyDefault with
    | some dflt => .ok ((alookup r.overrides f.name).getD dflt)
    | none =>
      match alookup r.overrides f.name with
      | some v => .ok v
      | none => .error .keyErr
  match value_or_key with
  | .error e => .error e
  | .ok (.vKey k) =>
    match get_by_idM s2 target k with
    | .error e => .error e
    | .ok (s3, d) => .ok (s3, .vObj d)
  | .ok v => .ok (s2, v)

/-- Python attribute read `instance.f`: routed through `Reference.__get__` when
the class has an installed descriptor for a reference field, otherwise the
instance `__dict__` (falling back to the class attribute left by a dataclass
default). -/
def getattrM (s : ORMState) (o : ObjId) (f : FieldT) : Except DErr (ORMState × Val) :=
  match s.heap o with
  | none => .error .attrErr
  | some obj =>
    if s.descriptors obj.cls && is_ref_field s f then
      match f.nonNull with
      | .nCls target => ref_get s o f target
      | _ => .error .typeErr
    else
      match alookup obj.dict f.name with
      | some v => .ok (s, v)
      | none =>
        match f.pyDefault with
        | some v => .ok (s, v)
        | none => .error .attrErr

/-- `cursor.execute("INSERT INTO ...", parameters)` followed by reading
`cursor.lastrowid`: the engine assigns the next rowid and appends the row.  The
instrumentation log records (table, assigned rowid, inserted instance). -/
def execute_insert (s : ORMState) (table : String) (cells : List SQLVal) (o : ObjId) :
    Except DErr (ORMState × Nat) :=
  match s.db table with
  | none => .error .dbErr
  | some tbl =>
    let rid := tbl.nextRow
    let tbl' : Table := { nextRow := rid + 1, rows := tbl.rows ++ [(rid, cells)] }
    .ok ({ s with db := upd s.db table tbl', insLog := s.insLog ++ [(table, rid, o)] }, rid)

/-- `ORM._astuple`, abstracted over the insert used for the cascade: read each
field off the instance; a non-`None` value of a field whose non-null type is
registered must be an instance of that exact type (else `TypeError`) and
contributes its row id, cascade-inserting it first when it has none; every
other value is passed through raw. -/
def astupleGo (ins : ORMState → ObjId → Option (Except DErr (ORMState × Nat)))
    (s : ORMState) (o : ObjId) (fields : List FieldT) :
    Option (Except DErr (ORMState × List Val)) :=
  match fields with
  | [] => some (.ok (s, []))
  | f :: fs =>
    match getattrM s o f with
    | .error e => some (.error e)
    | .ok (s1, v) =>
      if v ≠ Val.vNone ∧ hasOrmN s1 f.nonNull then
        match v with
        | .vObj d =>
          match s1.heap d with
          | none => some (.error .attrErr)
          | some dobj =>
            if f.nonNull = NTy.nCls dobj.cls then
              let p := get_dcorm_state s1 d
              match p.2.rowid with
              | some k =>
                match astupleGo ins p.1 o fs with
                | none => none
                | some (.error e) => some (.error e)
                | some (.ok (s2, vs)) => some (.ok (s2, Val.vKey k :: vs))
              | none =>
                match ins p.1 d with
                | none => none
                | some (.error e) => some (.error e)
                | some (.ok (s2, k)) =>
                  match astupleGo ins s2 o fs with
                  | none => none
                  | some (.error e) => some (.error e)
                  | some (.ok (s3, vs)) => some (.ok (s3, Val.vKey k :: vs))
            else some (.error .typeErr)
        | _ => some (.error .typeErr)
      else
        match astupleGo ins s1 o fs with
        | none => none
        | some (.error e) => some (.error e)
        | some (.ok (s2, vs)) => some (.ok (s2, v :: vs))

/-- `ORM.insert`: reflect the instance's fields, build the parameter tuple
(cascade-inserting unpersisted referenced records), execute one INSERT, then
record the assigned rowid on the instance's state and return it.  Fuel bounds
the cascade depth (`none` = the divergence a cyclic unpersisted graph
produces; the `row_id is None` RuntimeError guard never fires for a successful
sqlite INSERT, whose `lastrowid` is always set). -/
def insertM (fuel : Nat) (s : ORMState) (o : ObjId) :
    Option (Except DErr (ORMState × Nat)) :=
  match fuel with
  | 0 => none
  | fuel' + 1 =>
    match s.heap o with
    | none => some (.error .attrErr)
    | some obj =>
      match get_instance_fieldsC s obj.cls with
      | .error e => some (.error e)
      | .ok (table, fields) =>
        match astupleGo (insertM fuel') s o fields with
        | none => none
        | some (.error e) => some (.error e)
        | some (.ok (s1, vals)) =>
          match encodeRow vals with
          | none => some (.error .dbErr)
          | some cells =>
            match execute_insert s1 table cells o with
            | .error e => some (.error e)
            | .ok (s2, rid) => some (.ok (set_self_rowid s2 o rid, rid))

/-- `ORM._astuple` with the cascade inserting at the same fuel level as the
astuple call (the call shape `insert(fuel)` inside `astuple(fuel)` that the
mutual recursion of the source produces). -/
def astupleM (fuel : Nat) (s : ORMState) (o : ObjId) (fields : List FieldT) :
    Option (Except DErr (ORMState × List Val)) :=
  astupleGo (insertM fuel) s o fields

/-- `ORM.update_by_id`: rebuild the parameter tuple the same way insert does
and `UPDATE` every user column of the row with the given id. -/
def update_by_idM (fuel : Nat) (s : ORMState) (o : ObjId) (k : Nat) :
    Option (Except DErr ORMState) :=
  match s.heap o with
  | none => some (.error .attrErr)
  | some obj =>
    match get_instance_fieldsC s obj.cls with
    | .error e => some (.error e)
    | .ok (table, fields) =>
      match astupleM fuel s o fields with
      | none => none
      | some (.error e) => some (.error e)
      | some (.ok (s1, vals)) =>
        match encodeRow vals with
        | none => some (.error .dbErr)
        | some cells =>
          match s1.db table with
          | none => some (.error .dbErr)
          | some tbl =>
            let tbl' : Table :=
              { tbl with rows := tbl.rows.map fun r => if r.1 = k then (k, cells) else r }
            some (.ok { s1 with db := upd s1.db table tbl' })

/-- `ORM.update`: `update_by_id(instance, get_rowid(instance))`; the row-id
lookup runs first and its `ValueError` aborts the call before any SQL. -/
def updateM (fuel : Nat) (s : ORMState) (o : ObjId) :
    Option (ORMState × Except DErr Unit) :=
  match get_rowidM s o with
  | (s1, .error e) => some (s1, .error e)
  | (s1, .ok k) =>
    match update_by_idM fuel s1 o k with
    | none => none
    | some (.error e) => some (s1, .error e)
    | some (.ok s2) => some (s2, .ok ())

/-! ## The WeakKeyDict of src/dcorm/weak_refs.py -/

/-- The `ObjectData` namedtuple: the weak reference to the key instance
(identified here by a token, since only `is`-identity of weakref objects is
compared) and the stored data (opaque to the dict). -/
structure ObjData where
  ref : Nat
  dat : Nat
deriving DecidableEq, Repr

/-- `WeakKeyDict`: entries keyed by `id(instance)`; `nextRef` supplies fresh
weakref identities. -/
structure WeakKeyDict where
  data : List (Nat × ObjData)
  nextRef : Nat
deriving DecidableEq, Repr

/-- `WeakKeyDict.__setitem__`: build a fresh weakref (with the removal
callback) and store `ObjectData(weakref=ref, data=data)` under `id(instance)`. -/
def WeakKeyDict.setitem (d : WeakKeyDict) (oid : Nat) (v : Nat) : WeakKeyDict :=
  { data := aset d.data oid { ref := d.nextRef, dat := v }, nextRef := d.nextRef + 1 }

/-- The removal callback `__setitem__` registers on the weakref: if the stored
weakref is the one being finalized, delete the entry; a mismatch raises
`RuntimeError` (and a missing entry `KeyError`). -/
def WeakKeyDict.callback (d : WeakKeyDict) (oid r : Nat) : Except DErr WeakKeyDict :=
  match alookup d.data oid with
  | none => .error .keyErr
  | some od =>
    if od.ref = r then .ok { d with data := adel d.data oid }
    else .error .runtimeErr

/-- The reclamation event: when the instance with id `oid` is garbage
collected, the runtime invokes the callbacks of its still-live weakrefs.  The
only live weakref this dict created for the instance is the one currently
stored in its entry (a weakref displaced by a later `__setitem__` is itself
unreferenced and dead before the instance can die), so reclamation runs the
stored weakref's callback. -/
def WeakKeyDict.reclaim (d : WeakKeyDict) (oid : Nat) : Except DErr WeakKeyDict :=
  match alookup d.data oid with
  | none => .ok d
  | some od => d.callback oid od.ref

/-- `WeakKeyDict.__contains__`: the id must be present and the weakref must
still resolve (`live` tells whether the instance is still alive). -/
def WeakKeyDict.contains (d : WeakKeyDict) (live : Nat → Bool) (oid : Nat) : Bool :=
  (alookup d.data oid).isSome && live oid

/-- `WeakKeyDict.__len__`. -/
def WeakKeyDict.len (d : WeakKeyDict) : Nat := d.data.length

theorem adel_length_of_present {κ α : Type} [DecidableEq κ] {l : List (κ × α)} {k : κ}
    (h : (alookup l k).isSome) : (adel l k).length + 1 = l.length := by
  induction l with
  | nil => simp [alookup, List.find?] at h
  | cons p rest ih =>
    obtain ⟨k', v'⟩ := p
    by_cases hk : k' = k
    · simp [adel, hk]
    · have h' : (alookup rest k).isSome := by
        simpa [alookup, List.find?, hk] using h
      simpa [adel, hk] using ih h'

theorem alookup_adel_of_nodup {κ α : Type} [DecidableEq κ] {l : List (κ × α)} {k : κ}
    (h : (l.map Prod.fst).Nodup) : alookup (adel l k) k = none := by
  induction l with
  | nil => simp [adel, alookup, List.find?]
  | cons p rest ih =>
    obtain ⟨k', v'⟩ := p
    have hnd : (rest.map Prod.fst).Nodup := (List.nodup_cons.mp h).2
    by_cases hk : k' = k
    · subst hk
      have hnotin : k' ∉ rest.map Prod.fst := (List.nodup_cons.mp h).1
      simp only [adel, if_pos rfl]
      cases hfind : alookup rest k' with
      | none => exact hfind
      | some v =>
        exfalso
        apply hnotin
        unfold alookup at hfind
        cases hf : rest.find? (fun p => p.1 = k') with
        | none => rw [hf] at hfind; simp at hfind
        | some q =>
          have hq := List.find?_some hf
          have hqmem := List.mem_of_find?_eq_some hf
          have : q.1 = k' := by simpa using hq
          exact this ▸ List.mem_map_of_mem Prod.fst hqmem
    · simpa [adel, hk, alookup, List.find?] using ih hnd

/--
C9: once an instance in the `WeakKeyDict` is reclaimed, the registered weakref
callback deletes its entry with no caller action: the dict's length shrinks by
exactly one, the id is no longer bound, and membership for a dead instance is
reported false.
-/
theorem C9_weak_entry_vanishes (d : WeakKeyDict) (oid : Nat)
    (hpresent : (alookup d.data oid).isSome)
    (hnodup : (d.data.map Prod.fst).Nodup) :
    ∃ d', d.reclaim oid = .ok d' ∧
      d'.len + 1 = d.len ∧
      alookup d'.data oid = none ∧
      (∀ live : Nat → Bool, live oid = false → d.contains live oid = false) ∧
      (∀ live : Nat → Bool, d'.contains live oid = false) := by
  cases hfind : alookup d.data oid with
  | none => rw [hfind] at hpresent; simp at hpresent
  | some od =>
    refine ⟨{ d with data := adel d.data oid }, ?_, ?_, ?_, ?_, ?_⟩
    · simp [WeakKeyDict.reclaim, hfind, WeakKeyDict.callback]
    · simpa [WeakKeyDict.len] using adel_length_of_present hpresent
    · exact alookup_adel_of_nodup hnodup
    · intro live hdead
      simp [WeakKeyDict.contains, hdead]
    · intro live
      simp [WeakKeyDict.contains, alookup_adel_of_nodup hnodup]

/-- Witness for C9 at a concrete one-entry dict. -/
theorem C9_weak_entry_vanishes_witness :
    ∃ d', WeakKeyDict.reclaim { data := [(5, { ref := 0, dat := 42 })], nextRef := 1 } 5 = .ok d' ∧
      d'.len + 1 = WeakKeyDict.len { data := [(5, { ref := 0, dat := 42 })], nextRef := 1 } ∧
      alookup d'.data 5 = none ∧
      (∀ live : Nat → Bool, live 5 = false →
        WeakKeyDict.contains { data := [(5, { ref := 0, dat := 42 })], nextRef := 1 } live 5 = false) ∧
      (∀ live : Nat → Bool, d'.contains live 5 = false) :=
  C9_weak_entry_vanishes { data := [(5, { ref := 0, dat := 42 })], nextRef := 1 } 5
    (by decide) (by decide)

/-! ## Concrete example schema used by witnesses and counterexamples:
`Foo(a: int)` and `Bar(b: int, some_foo: Foo)`, as in the repository's query
tests. -/

def exFooFields : List FieldT :=
  [{ name := "a", ty := { nty := .nInt, opt := false }, pyDefault := none }]

def exBarFields : List FieldT :=
  [{ name := "b", ty := { nty := .nInt, opt := false }, pyDefault := none },
   { name := "some_foo", ty := { nty := .nCls "Foo", opt := false }, pyDefault := none }]

/-- Fresh interpreter state with the two example dataclasses defined but
nothing registered. -/
def exEmpty : ORMState :=
  { classes := fun c => if c = "Foo" then some exFooFields
               else if c = "Bar" then some exBarFields else none,
    registered := fun _ => none,
    descriptors := fun _ => false,
    installCount := fun _ => 0,
    heap := fun _ => none,
    nextObj := 100,
    known := fun _ => none,
    db := fun _ => none,
    insLog := [] }

/-- Both example classes registered (`orm_dataclass` applied to each). -/
def exReg : ORMState := orm_dataclass (orm_dataclass exEmpty "Foo") "Bar"

/--
C3 (amended): the type-to-column mapping `ORM.create` uses sends `int` to
INTEGER, `float` to REAL, `str` to TEXT, `date` and `datetime` to TEXT, and
every remaining type — including a registered record type, whose lookup key
`KeyType` is a subclass distinct from `int` and therefore absent from
`SQLITE_TYPE` — to the BLOB fallback, never erroring.
-/
theorem C3_column_mapping (s : ORMState) :
    columnType s .nInt = "INTEGER" ∧
    columnType s .nFloat = "REAL" ∧
    columnType s .nStr = "TEXT" ∧
    columnType s .nDate = "TEXT" ∧
    columnType s .nDatetime = "TEXT" ∧
    (∀ c, (s.registered c).isSome → columnType s (NTy.nCls c) = "BLOB") ∧
    (∀ c, s.registered c = none → columnType s (NTy.nCls c) = "BLOB") ∧
    columnType s .nKeyType = "BLOB" ∧
    (∀ tag, columnType s (NTy.nOther tag) = "BLOB") ∧
    (∀ t, columnType s t = "INTEGER" ∨ columnType s t = "REAL" ∨
      columnType s t = "TEXT" ∨ columnType s t = "BLOB") := by
  refine ⟨rfl, rfl, rfl, rfl, rfl, ?_, ?_, rfl, fun tag => rfl, ?_⟩
  · intro c hc
    simp [columnType, map_type, hasOrmN, hc, SQLITE_TYPE]
  · intro c hc
    simp [columnType, map_type, hasOrmN, hc, SQLITE_TYPE]
  · intro t
    by_cases h : hasOrmN s t = true
    · simp [columnType, map_type, h, SQLITE_TYPE]
    · have h' : hasOrmN s t = false := by
        cases hb : hasOrmN s t
        · rfl
        · exact absurd hb h
      rw [columnType, map_type, h']
      cases t <;> simp [SQLITE_TYPE]

/-- Witness for C3 at the concrete registered schema. -/
theorem C3_column_mapping_witness :
    columnType exReg .nInt = "INTEGER" ∧ columnType exReg (NTy.nCls "Foo") = "BLOB" :=
  ⟨(C3_column_mapping exReg).1,
   (C3_column_mapping exReg).2.2.2.2.2.1 "Foo" (by decide)⟩

/--
C3 counterexample: with `Foo` registered, the column `create` declares for a
field of non-null type `Foo` is "BLOB", not an INTEGER key column: `map_type`
substitutes `KeyType`, and the `SQLITE_TYPE` defaultdict has no entry for
`KeyType` (a subclass of `int` is a different dict key than `int`), so the
lookup falls through to the "BLOB" default.
-/
theorem C3_ref_column_blob_not_integer :
    (exReg.registered "Foo").isSome = true ∧
    columnType exReg (NTy.nCls "Foo") = "BLOB" ∧
    columnType exReg (NTy.nCls "Foo") ≠ "INTEGER" := by decide

/-- Example state with one unpersisted `Foo` instance on the heap (id 900) that
the state store does not know. -/
def exObj : ORMState :=
  { exReg with heap := updN exReg.heap 900 { cls := "Foo", dict := [("a", Val.vInt 7)] } }

/--
C7 (amended): `update` and `delete` on an instance with no assigned row id fail
with `ValueError`; but the row-id lookup they perform runs through
`_get_dcorm_state`, which auto-creates a state record (row id absent) for the
unknown instance, so the Instance State Store gains an entry rather than
staying unchanged.
-/
theorem C7_update_delete_fail_without_rowid (s : ORMState) (o : ObjId) (obj : Obj)
    (hk : s.known o = none) (hh : s.heap o = some obj) :
    (get_rowidM s o).2 = .error .valueErr ∧
    (get_rowidM s o).1.known o = some { rowid := none, overrides := [] } ∧
    (∀ fuel, updateM fuel s o = some ((get_rowidM s o).1, .error .valueErr)) ∧
    deleteM s o = ((get_rowidM s o).1, .error .valueErr) := by
  have hst : get_dcorm_state s o =
      ({ s with known := updN s.known o { rowid := none, overrides := [] } },
       { rowid := none, overrides := [] }) := by
    simp [get_dcorm_state, hk]
  have hrow : get_rowidM s o =
      ({ s with known := updN s.known o { rowid := none, overrides := [] } },
       .error .valueErr) := by
    simp [get_rowidM, hst]
  refine ⟨by simp [hrow], by simp [hrow, updN], ?_, ?_⟩
  · intro fuel
    simp [updateM, hrow]
  · simp [deleteM, hh, hrow]

/-- Witness for C7 at the concrete unpersisted instance. -/
theorem C7_update_delete_fail_without_rowid_witness :
    (get_rowidM exObj 900).2 = .error .valueErr ∧
    (get_rowidM exObj 900).1.known 900 = some { rowid := none, overrides := [] } ∧
    (∀ fuel, updateM fuel exObj 900 = some ((get_rowidM exObj 900).1, .error .valueErr)) ∧
    deleteM exObj 900 = ((get_rowidM exObj 900).1, .error .valueErr) :=
  C7_update_delete_fail_without_rowid exObj 900 { cls := "Foo", dict := [("a", Val.vInt 7)] }
    (by decide) (by decide)

/--
C7 counterexample: the failed row-id lookup does mutate the Instance State
Store — for an unknown instance it creates a state record, observable as the
store going from unbound to bound at that instance — contradicting the claim
that the store is unchanged by the failed lookup.
-/
theorem C7_failed_lookup_creates_state :
    (get_rowidM exObj 900).2 = .error .valueErr ∧
    exObj.known 900 = none ∧
    (get_rowidM exObj 900).1.known 900 = some { rowid := none, overrides := [] } :=
  ⟨rfl, rfl, rfl⟩

/--
C8 (amended): with no intervening re-registration, registration is idempotent
and accessor installation happens at most once: a successful resolution leaves
the `has_descriptors` flag set and bumps the install counter by at most one,
and every later resolution returns with the state untouched (a no-op).
(Re-registering a type after its first resolution clears the flag, and the next
resolution is then not a no-op — see the counterexample.)
-/
theorem C8_install_at_most_once (s : ORMState) (c : ClsName) (fields : List FieldT)
    (hc : s.classes c = some fields) (hne : fields.isEmpty = false) :
    orm_dataclass (orm_dataclass s c) c = orm_dataclass s c ∧
    (s.registered c = some true → get_class_fieldsC s c = .ok (s, c, fields)) ∧
    (∀ s', get_class_fieldsC s c = .ok (s', c, fields) →
      s'.registered c = some true ∧
      s'.installCount c ≤ s.installCount c + 1 ∧
      get_class_fieldsC s' c = .ok (s', c, fields)) := by
  have hresolved : ∀ t : ORMState, t.registered c = some true → t.classes c = some fields →
      get_class_fieldsC t c = .ok (t, c, fields) := by
    intro t hreg hcls
    simp [get_class_fieldsC, hreg, get_instance_fieldsC, hcls, hne,
      add_descriptors_if_missing]
  refine ⟨?_, fun hreg => hresolved s hreg hc, ?_⟩
  · have hupd : upd (upd s.registered c false) c false = upd s.registered c false := by
      funext x
      by_cases hx : x = c <;> simp [upd, hx]
    show { s with registered := upd (upd s.registered c false) c false } =
      { s with registered := upd s.registered c false }
    rw [hupd]
  · intro s' hok
    cases hreg : s.registered c with
    | none => simp [get_class_fieldsC, hreg] at hok
    | some flag =>
      cases flag with
      | true =>
        have hres := hresolved s hreg hc
        rw [hres] at hok
        injection hok with h1
        have hss : s' = s := (congrArg Prod.fst h1).symm
        subst hss
        exact ⟨hreg, Nat.le_succ _, hres⟩
      | false =>
        simp only [get_class_fieldsC, hreg, get_instance_fieldsC, hc, hne,
          Bool.false_eq_true, if_false, add_descriptors_if_missing] at hok
        by_cases hany : (fields.any fun f => hasOrmN s f.nonNull) = true
        · by_cases hdesc : s.descriptors c = true
          · simp only [hany, hdesc, if_true] at hok
            cases hok
          · have hdesc' : s.descriptors c = false := by
              cases hb : s.descriptors c
              · rfl
              · exact absurd hb hdesc
            simp only [hany, hdesc', if_true, Bool.false_eq_true, if_false,
              Except.ok.injEq, Prod.mk.injEq] at hok
            obtain ⟨hs', -, -⟩ := hok
            subst hs'
            refine ⟨by simp [upd], by simp, ?_⟩
            exact hresolved _ (by simp [upd]) (by simpa using hc)
        · have hany' : (fields.any fun f => hasOrmN s f.nonNull) = false := by
            cases hb : (fields.any fun f => hasOrmN s f.nonNull)
            · rfl
            · exact absurd hb hany
          simp only [hany', Bool.false_eq_true, if_false, Except.ok.injEq,
            Prod.mk.injEq] at hok
          obtain ⟨hs', -, -⟩ := hok
          subst hs'
          refine ⟨by simp [upd], by simp, ?_⟩
          exact hresolved _ (by simp [upd]) (by simpa using hc)

/-- Witness for C8 at the concrete schema: `Bar` registered and never yet
resolved; resolving twice installs once and the second resolve is a no-op. -/
theorem C8_install_at_most_once_witness :
    orm_dataclass (orm_dataclass exReg "Bar") "Bar" = orm_dataclass exReg "Bar" ∧
    (exReg.registered "Bar" = some true → get_class_fieldsC exReg "Bar" = .ok (exReg, "Bar", exBarFields)) ∧
    (∀ s', get_class_fieldsC exReg "Bar" = .ok (s', "Bar", exBarFields) →
      s'.registered "Bar" = some true ∧
      s'.installCount "Bar" ≤ exReg.installCount "Bar" + 1 ∧
      get_class_fieldsC s' "Bar" = .ok (s', "Bar", exBarFields)) :=
  C8_install_at_most_once exReg "Bar" exBarFields (by decide) (by decide)

/-- The example state after `Bar`'s first resolution (descriptors installed). -/
def exResolvedBar : ORMState :=
  match get_class_fieldsC exReg "Bar" with
  | .ok (s, _, _) => s
  | .error _ => exReg

/-- The example state re-registering `Bar` after it was resolved. -/
def exReRegBar : ORMState := orm_dataclass exResolvedBar "Bar"

/--
C8 counterexample: after `Bar` has been resolved once (accessors installed,
`installCount = 1`), registering `Bar` again resets its `has_descriptors` flag,
and the next resolution is not a no-op: the install loop re-runs and its
`hasattr` probe trips over the already-installed `Reference` descriptor
(`weakref.ref(None)` inside `_get_dcorm_state(None)`), raising `TypeError`
instead of performing no installation.
-/
theorem C8_second_resolve_after_reregister_not_noop :
    (get_class_fieldsC exReg "Bar").isOk = true ∧
    exResolvedBar.installCount "Bar" = 1 ∧
    exResolvedBar.registered "Bar" = some true ∧
    exReRegBar.registered "Bar" = some false ∧
    get_class_fieldsC exReRegBar "Bar" = .error .typeErr := by
  refine ⟨rfl, rfl, rfl, rfl, rfl⟩

/-! ## The `Select` query builder -/

/-- The `_rowid_` pseudo-column name (`SQLITE_ROWID`). -/
def SQLITE_ROWID : String := "_rowid_"

/-- The mutable fields of a `Select` builder. -/
structure SelectSt where
  dataclass : ClsName
  table : String
  fields : List FieldT
  join_attributes : List String
  join_aliases : List String
  join_tables : List String
  join_other_attributes : List String
  where_clauses : List String
  parameters : List SQLVal
deriving DecidableEq, Repr

/-- Python's `sep.join(parts)`. -/
def pyJoin (sep : String) : List String → String
  | [] => ""
  | [x] => x
  | x :: y :: rest => x ++ sep ++ pyJoin sep (y :: rest)

/-- `comma_separated_names`: the field names (optionally table-qualified),
optionally preceded by the rowid pseudo-column. -/
def comma_separated_names (fields : List FieldT) (include_rowid : Bool)
    (table : Option String) : String :=
  match table with
  | none =>
    let names := pyJoin ", " (fields.map fun f => f.name)
    if include_rowid then SQLITE_ROWID ++ ", " ++ names else names
  | some t =>
    let names := pyJoin ", " (fields.map fun f => t ++ "." ++ f.name)
    if include_rowid then t ++ "." ++ SQLITE_ROWID ++ ", " ++ names else names

/-- One entry of the JOIN list in `Select.get_statement`:
`JOIN {table} {alias} ON {root}.{attribute} = {alias if alias else table}.{other}`. -/
def join_entry (root : String) (tbl aliasName attr2 oattr : String) : String :=
  "JOIN " ++ tbl ++ " " ++ aliasName ++ " ON " ++ root ++ "." ++ attr2 ++ " = " ++
    (if aliasName = "" then tbl else aliasName) ++ "." ++ oattr

/-- `Select.get_statement`: compile the builder into one SELECT statement. -/
def get_statement (q : SelectSt) : String :=
  let has_join := 0 < q.join_attributes.length
  let columns := comma_separated_names q.fields true (if has_join then some q.table else none)
  let join_list :=
    (q.join_tables.zip (q.join_aliases.zip (q.join_attributes.zip q.join_other_attributes))).map
      fun p => join_entry q.table p.1 p.2.1 p.2.2.1 p.2.2.2
  let joins := pyJoin " " join_list
  let where_clause := pyJoin " AND " q.where_clauses
  let whereKw := if where_clause = "" then "" else "WHERE"
  let distinct := if has_join then "DISTINCT" else ""
  "SELECT " ++ distinct ++ " " ++ columns ++ " FROM " ++ q.table ++ " " ++ joins ++
    " " ++ whereKw ++ " " ++ where_clause

/-- `Select.__init__` (via `ORM.select`): resolve the root class and start with
empty join/where/parameter lists. -/
def selectM (s : ORMState) (c : ClsName) : Except DErr (ORMState × SelectSt) :=
  match get_class_fieldsC s c with
  | .error e => .error e
  | .ok (s', tbl, fields) =>
    .ok (s', { dataclass := c, table := tbl, fields := fields,
               join_attributes := [], join_aliases := [], join_tables := [],
               join_other_attributes := [], where_clauses := [], parameters := [] })

/-- The `dataclass_or_select` argument of `Select.join`: a dataclass instance
(only its type is consulted) or a nested `Select`. -/
inductive JoinOther where
  | inst (c : ClsName)
  | sub (q : SelectSt)
deriving DecidableEq, Repr

/-- `validate_join_arguments`. -/
def validate_join_arguments (attr : Option String) (dos : Option JoinOther)
    (oattr : Option String) : Except DErr Unit :=
  if attr.isNone && dos.isNone then .error .valueErr
  else if attr.isNone && oattr.isNone then .error .valueErr
  else if dos.isNone && oattr.isSome then .error .valueErr
  else .ok ()

/-- `find_field` applied to an annotation object: `dataclasses.fields` raises
`TypeError` unless the object is a dataclass (an `Optional[...]` annotation or
a builtin class is not); an unknown field name raises `ValueError`. -/
def find_fieldT (s : ORMState) (t : PyT) (name : String) : Except DErr FieldT :=
  if t.opt then .error .typeErr
  else
    match t.nty with
    | .nCls c =>
      match s.classes c with
      | none => .error .typeErr
      | some fields =>
        match fields.find? fun f => f.name = name with
        | some f => .ok f
        | none => .error .valueErr
    | _ => .error .typeErr

/-- `Select._get_left_join_type`: append the join attribute (the rowid
pseudo-column when absent) and resolve the left type — the root class itself,
or the declared type of the named field. -/
def get_left_join_type (s : ORMState) (q : SelectSt) (attr : Option String) :
    Except DErr (SelectSt × PyT) :=
  match attr with
  | none =>
    .ok ({ q with join_attributes := q.join_attributes ++ [SQLITE_ROWID] },
         { nty := .nCls q.dataclass, opt := false })
  | some a =>
    let q' := { q with join_attributes := q.join_attributes ++ [a] }
    match find_fieldT s { nty := .nCls q.dataclass, opt := false } a with
    | .error e => .error e
    | .ok fld => .ok (q', fld.ty)

/-- `Select._get_other_join_class`: a nested select contributes its root class,
an instance its type, and an absent argument defaults to the left type. -/
def get_other_join_class (dos : Option JoinOther) (left_type : PyT) : PyT :=
  match dos with
  | some (.sub sq) => { nty := .nCls sq.dataclass, opt := false }
  | some (.inst c) => { nty := .nCls c, opt := false }
  | none => left_type

/-- `Select._handle_right_join_type`: append the right join attribute (rowid
when absent), resolve the right type symmetrically, and reject the join with
`TypeError` unless the two resolved types are identical. -/
def handle_right_join_type (s : ORMState) (q : SelectSt) (left_type other_class : PyT)
    (oattr : Option String) : Except DErr SelectSt :=
  match oattr with
  | none =>
    let q' := { q with join_other_attributes := q.join_other_attributes ++ [SQLITE_ROWID] }
    if left_type = other_class then .ok q' else .error .typeErr
  | some a =>
    let q' := { q with join_other_attributes := q.join_other_attributes ++ [a] }
    match find_fieldT s other_class a with
    | .error e => .error e
    | .ok fld => if left_type = fld.ty then .ok q' else .error .typeErr

/-- `Select._get_join_table`: resolve the joined class through
`_get_class_fields`, converting its `TypeError` into
`ValueError(... is not an ORM dataclass)`. -/
def get_join_tableM (s : ORMState) (other_class : PyT) :
    Except DErr (ORMState × String) :=
  match get_class_fieldsT s other_class with
  | .ok (s', tbl, _) => .ok (s', tbl)
  | .error .typeErr => .error .valueErr
  | .error e => .error e

/-- `Select._add_to_join_table`: a nested select joins as a parenthesized
derived table and its parameters are prepended to the outer list; anything
else joins by table name. -/
def add_to_join_table (q : SelectSt) (join_table : String) (dos : Option JoinOther) :
    SelectSt :=
  match dos with
  | some (.sub sq) =>
    { q with join_tables := q.join_tables ++ ["( " ++ get_statement sq ++ " )"],
             parameters := sq.parameters ++ q.parameters }
  | _ => { q with join_tables := q.join_tables ++ [join_table] }

/-- `Select.join`. -/
def join_select (s : ORMState) (q : SelectSt) (attr : Option String)
    (dos : Option JoinOther) (oattr : Option String) :
    Except DErr (ORMState × SelectSt) :=
  match validate_join_arguments attr dos oattr with
  | .error e => .error e
  | .ok _ =>
    match get_left_join_type s q attr with
    | .error e => .error e
    | .ok (q1, left_type) =>
      let other_class := get_other_join_class dos left_type
      match handle_right_join_type s q1 left_type other_class oattr with
      | .error e => .error e
      | .ok q2 =>
        match get_join_tableM s other_class with
        | .error e => .error e
        | .ok (s1, join_table) =>
          let aliasName := match attr with | some a => a | none => join_table
          let q3 := { q2 with join_aliases := q2.join_aliases ++ [aliasName] }
          .ok (s1, add_to_join_table q3 join_table dos)

/-- `sql_converter.unstructure` on one `where` parameter: scalars pass through
(dates/timestamps through the ISO hooks), and an instance of a registered class
unstructures to its row id via `get_rowid` (which can itself mutate the state
store and raise `ValueError`). -/
def unstructureVal (s : ORMState) (v : Val) : ORMState × Except DErr SQLVal :=
  match v with
  | .vNone => (s, .ok .sqlNull)
  | .vInt n => (s, .ok (.sqlInt n))
  | .vFloat x => (s, .ok (.sqlReal x))
  | .vStr t => (s, .ok (.sqlText t))
  | .vDate d => (s, .ok (.sqlDateText d))
  | .vDatetime t => (s, .ok (.sqlDatetimeText t.instant))
  | .vBlob b => (s, .ok (.sqlBlob b))
  | .vKey k => (s, .ok (.sqlInt k))
  | .vObj o =>
    match s.heap o with
    | none => (s, .error .typeErr)
    | some obj =>
      if (s.registered obj.cls).isSome then
        match get_rowidM s o with
        | (s1, .error e) => (s1, .error e)
        | (s1, .ok k) => (s1, .ok (.sqlInt k))
      else (s, .error .typeErr)

/-- `unstructure` mapped across a parameter tuple, left to right. -/
def unstructureList (s : ORMState) : List Val → ORMState × Except DErr (List SQLVal)
  | [] => (s, .ok [])
  | v :: vs =>
    match unstructureVal s v with
    | (s1, .error e) => (s1, .error e)
    | (s1, .ok w) =>
      match unstructureList s1 vs with
      | (s2, .error e) => (s2, .error e)
      | (s2, .ok ws) => (s2, .ok (w :: ws))

/-- `Select.where`: append the parenthesized clause and extend the parameter
list with the unstructured parameters. -/
def whereM (s : ORMState) (q : SelectSt) (clause : String) (ps : List Val) :
    ORMState × Except DErr SelectSt :=
  let q1 := { q with where_clauses := q.where_clauses ++ ["(" ++ clause ++ ")"] }
  match unstructureList s ps with
  | (s1, .error e) => (s1, .error e)
  | (s1, .ok ws) => (s1, .ok { q1 with parameters := q1.parameters ++ ws })

/-- A successful `_get_class_fields` only touches the registry bookkeeping
(`registered`, `descriptors`, `installCount`): classes, heap, state store,
database and log are untouched, the returned table is the class name, the
fields are the class definition, and the flag ends up set. -/
theorem get_class_fieldsC_spec {s s' : ORMState} {c tbl : ClsName} {fields : List FieldT}
    (h : get_class_fieldsC s c = .ok (s', tbl, fields)) :
    tbl = c ∧ s.classes c = some fields ∧
    s'.classes = s.classes ∧ s'.heap = s.heap ∧ s'.nextObj = s.nextObj ∧
    s'.known = s.known ∧ s'.db = s.db ∧ s'.insLog = s.insLog ∧
    s'.registered c = some true := by
  cases hreg : s.registered c with
  | none => simp [get_class_fieldsC, hreg] at h
  | some flag =>
    cases hcls : s.classes c with
    | none => simp [get_class_fieldsC, hreg, get_instance_fieldsC, hcls] at h
    | some fields0 =>
      by_cases hne : fields0.isEmpty = true
      · simp [get_class_fieldsC, hreg, get_instance_fieldsC, hcls, hne] at h
      · have hne' : fields0.isEmpty = false := by
          cases hb : fields0.isEmpty
          · rfl
          · exact absurd hb hne
        simp only [get_class_fieldsC, hreg, get_instance_fieldsC, hcls, hne',
          Bool.false_eq_true, if_false, add_descriptors_if_missing] at h
        cases flag with
        | true =>
          simp only [Except.ok.injEq, Prod.mk.injEq] at h
          obtain ⟨hs, htbl, hf⟩ := h
          subst hs
          exact ⟨htbl.symm, (by rw [hf]), rfl, rfl, rfl, rfl, rfl, rfl, hreg⟩
        | false =>
          by_cases hany : (fields0.any fun f => hasOrmN s f.nonNull) = true
          · by_cases hdesc : s.descriptors c = true
            · simp [hany, hdesc] at h
            · have hdesc' : s.descriptors c = false := by
                cases hb : s.descriptors c
                · rfl
                · exact absurd hb hdesc
              simp only [hany, hdesc', if_true, Bool.false_eq_true, if_false,
                Except.ok.injEq, Prod.mk.injEq] at h
              obtain ⟨hs, htbl, hf⟩ := h
              subst hs
              exact ⟨htbl.symm, (by rw [hf]), rfl, rfl, rfl, rfl, rfl, rfl,
                by simp [upd]⟩
          · have hany' : (fields0.any fun f => hasOrmN s f.nonNull) = false := by
              cases hb : (fields0.any fun f => hasOrmN s f.nonNull)
              · rfl
              · exact absurd hb hany
            simp only [hany', Bool.false_eq_true, if_false, Except.ok.injEq,
              Prod.mk.injEq] at h
            obtain ⟨hs, htbl, hf⟩ := h
            subst hs
            exact ⟨htbl.symm, (by rw [hf]), rfl, rfl, rfl, rfl, rfl, rfl,
              by simp [upd]⟩

/-- The right-type resolution performed by `_handle_right_join_type`, in
isolation: the other class itself when no right attribute is given, else the
declared type of the named field on the other class. -/
def resolveRightType (s : ORMState) (other_class : PyT) (oattr : Option String) :
    Except DErr PyT :=
  match oattr with
  | none => .ok other_class
  | some a =>
    match find_fieldT s other_class a with
    | .error e => .error e
    | .ok fld => .ok fld.ty

/--
C6: `Select.join` type safety.  (1) When validation passes and both endpoint
types resolve, a mismatch between the resolved left and right types rejects the
join with `TypeError`.  (2) A join naming an unknown attribute of the root
class fails with a reported error.  (3) A join whose resolved other endpoint is
not a registered record type (e.g. a plain `int` field) fails with a reported
error (`_get_join_table` turning the registry `TypeError` into `ValueError`).
(4) `join` never touches the database — the errors above are raised before any
SQL executes.
-/
theorem C6_join_type_checks (s : ORMState) (q : SelectSt) (attr : Option String)
    (dos : Option JoinOther) (oattr : Option String) :
    (validate_join_arguments attr dos oattr = .ok () →
      ∀ q1 lt, get_left_join_type s q attr = .ok (q1, lt) →
      ∀ rt, resolveRightType s (get_other_join_class dos lt) oattr = .ok rt →
      lt ≠ rt → join_select s q attr dos oattr = .error .typeErr) ∧
    (∀ a fields, attr = some a → s.classes q.dataclass = some fields →
      (fields.find? fun f => f.name = a) = none →
      ∃ e, join_select s q attr dos oattr = .error e) ∧
    (validate_join_arguments attr dos oattr = .ok () →
      ∀ q1 lt, get_left_join_type s q attr = .ok (q1, lt) →
      ∀ q2, handle_right_join_type s q1 lt (get_other_join_class dos lt) oattr = .ok q2 →
      ∀ e', get_class_fieldsT s (get_other_join_class dos lt) = .error e' →
      join_select s q attr dos oattr =
        .error (if e' = .typeErr then .valueErr else e')) ∧
    (∀ s1 q', join_select s q attr dos oattr = .ok (s1, q') → s1.db = s.db) := by
  refine ⟨?_, ?_, ?_, ?_⟩
  · intro hval q1 lt hleft rt hright hne
    have hhr : handle_right_join_type s q1 lt (get_other_join_class dos lt) oattr =
        .error .typeErr := by
      cases oattr with
      | none =>
        simp only [resolveRightType, Except.ok.injEq] at hright
        subst hright
        simp [handle_right_join_type, hne]
      | some a =>
        simp only [resolveRightType] at hright
        cases hf : find_fieldT s (get_other_join_class dos lt) a with
        | error e => rw [hf] at hright; cases hright
        | ok fld =>
          rw [hf] at hright
          simp only [Except.ok.injEq] at hright
          subst hright
          simp [handle_right_join_type, hf, hne]
    simp [join_select, hval, hleft, hhr]
  · intro a fields ha hcls hfind
    subst ha
    cases hval : validate_join_arguments (some a) dos oattr with
    | error e => exact ⟨e, by simp [join_select, hval]⟩
    | ok u =>
      refine ⟨.valueErr, ?_⟩
      have hleft : get_left_join_type s q (some a) = .error .valueErr := by
        simp [get_left_join_type, find_fieldT, hcls, hfind]
      simp [join_select, hval, hleft]
  · intro hval q1 lt hleft q2 hhr e' hgcf
    have hjt : get_join_tableM s (get_other_join_class dos lt) =
        .error (if e' = .typeErr then .valueErr else e') := by
      rw [get_join_tableM, hgcf]
      cases e' <;> simp
    simp [join_select, hval, hleft, hhr, hjt]
  · intro s1 q' hok
    cases hval : validate_join_arguments attr dos oattr with
    | error e => simp [join_select, hval] at hok
    | ok u =>
      cases hleft : get_left_join_type s q attr with
      | error e => simp [join_select, hval, hleft] at hok
      | ok p =>
        obtain ⟨q1, lt⟩ := p
        cases hhr : handle_right_join_type s q1 lt (get_other_join_class dos lt) oattr with
        | error e => simp [join_select, hval, hleft, hhr] at hok
        | ok q2 =>
          cases hjt : get_join_tableM s (get_other_join_class dos lt) with
          | error e => simp [join_select, hval, hleft, hhr, hjt] at hok
          | ok p2 =>
            obtain ⟨s2, jtbl⟩ := p2
            simp only [join_select, hval, hleft, hhr, hjt, Except.ok.injEq,
              Prod.mk.injEq] at hok
            obtain ⟨hs1, -⟩ := hok
            subst hs1
            rw [get_join_tableM] at hjt
            cases hgcf : get_class_fieldsT s (get_other_join_class dos lt) with
            | error e =>
              rw [hgcf] at hjt
              cases e <;> simp at hjt
            | ok p3 =>
              obtain ⟨s3, tbl3, fields3⟩ := p3
              rw [hgcf] at hjt
              simp only [Except.ok.injEq, Prod.mk.injEq] at hjt
              obtain ⟨hs2, -⟩ := hjt
              subst hs2
              rw [get_class_fieldsT] at hgcf
              by_cases hopt : (get_other_join_class dos lt).opt = true
              · rw [if_pos hopt] at hgcf; cases hgcf
              · rw [if_neg hopt] at hgcf
                cases hnty : (get_other_join_class dos lt).nty with
                | nCls c =>
                  rw [hnty] at hgcf
                  exact (get_class_fieldsC_spec hgcf).2.2.2.2.2.2.1
                | nInt => rw [hnty] at hgcf; cases hgcf
                | nFloat => rw [hnty] at hgcf; cases hgcf
                | nStr => rw [hnty] at hgcf; cases hgcf
                | nDate => rw [hnty] at hgcf; cases hgcf
                | nDatetime => rw [hnty] at hgcf; cases hgcf
                | nKeyType => rw [hnty] at hgcf; cases hgcf
                | nOther tag => rw [hnty] at hgcf; cases hgcf

/-- The fresh `Select(Bar)` builder over the example schema. -/
def exQBar : SelectSt :=
  { dataclass := "Bar", table := "Bar", fields := exBarFields,
    join_attributes := [], join_aliases := [], join_tables := [],
    join_other_attributes := [], where_clauses := [], parameters := [] }

/-- Witness for C6 at the repository's own test cases: joining `some_foo`
against a `Select(Bar)` sub-query raises `TypeError` (Foo vs Bar); joining an
unknown attribute or the plain-`int` field `b` raises a reported error. -/
theorem C6_join_type_checks_witness :
    selectM exReg "Bar" = .ok (exResolvedBar, exQBar) ∧
    join_select exResolvedBar exQBar (some "some_foo") (some (.sub exQBar)) none =
      .error .typeErr ∧
    (∃ e, join_select exResolvedBar exQBar (some "wrong_name") none none = .error e) ∧
    join_select exResolvedBar exQBar (some "b") none none = .error .valueErr := by
  refine ⟨rfl, ?_, ?_, ?_⟩
  · exact (C6_join_type_checks exResolvedBar exQBar (some "some_foo") (some (.sub exQBar)) none).1
      rfl { exQBar with join_attributes := ["some_foo"] } { nty := .nCls "Foo", opt := false }
      rfl { nty := .nCls "Bar", opt := false } rfl (by decide)
  · exact (C6_join_type_checks exResolvedBar exQBar (some "wrong_name") none none).2.1
      "wrong_name" exBarFields rfl rfl (by decide)
  · have h := (C6_join_type_checks exResolvedBar exQBar (some "b") none none).2.2.1
      rfl { exQBar with join_attributes := ["b"] } { nty := .nInt, opt := false } rfl
      { exQBar with join_attributes := ["b"], join_other_attributes := [SQLITE_ROWID] } rfl
      .typeErr rfl
    simpa using h

/-! ## Placeholder accounting for C4 -/

/-- Number of `?` placeholders occurring in a piece of SQL text. -/
def qCount (str : String) : Nat := str.data.countP fun ch => ch = '?'

/-- Total placeholder count of a list of fragments. -/
def qCountSum (l : List String) : Nat := (l.map qCount).sum

theorem qCount_append (a b : String) : qCount (a ++ b) = qCount a + qCount b := by
  unfold qCount
  rw [String.data_append]
  exact List.countP_append _ _ _

theorem qCount_pyJoin {sep : String} (hsep : qCount sep = 0) (l : List String) :
    qCount (pyJoin sep l) = qCountSum l := by
  induction l with
  | nil => simp [pyJoin, qCount, qCountSum]
  | cons x xs ih =>
    cases xs with
    | nil => simp [pyJoin, qCountSum]
    | cons y rest =>
      simp only [pyJoin, qCount_append, hsep, qCountSum, List.map_cons, List.sum_cons] at *
      omega

theorem qCountSum_append (a b : List String) :
    qCountSum (a ++ b) = qCountSum a + qCountSum b := by
  simp [qCountSum]

/-- A fresh builder starts with empty join, where and parameter lists. -/
theorem selectM_spec {s s' : ORMState} {c : ClsName} {q : SelectSt}
    (h : selectM s c = .ok (s', q)) :
    q.dataclass = c ∧ q.table = c ∧ (∃ fields, s.classes c = some fields ∧ q.fields = fields) ∧
    q.join_attributes = [] ∧ q.join_aliases = [] ∧ q.join_tables = [] ∧
    q.join_other_attributes = [] ∧ q.where_clauses = [] ∧ q.parameters = [] := by
  cases hg : get_class_fieldsC s c with
  | error e => simp [selectM, hg] at h
  | ok p =>
    obtain ⟨s2, tbl, fields⟩ := p
    have hspec := get_class_fieldsC_spec hg
    simp only [selectM, hg, Except.ok.injEq, Prod.mk.injEq] at h
    obtain ⟨-, hq⟩ := h
    subst hq
    exact ⟨rfl, hspec.1, ⟨fields, hspec.2.1, rfl⟩, rfl, rfl, rfl, rfl, rfl, rfl⟩

/-- Structure of a successful `where`. -/
theorem whereM_spec {s s2 : ORMState} {q q' : SelectSt} {clause : String} {ps : List Val}
    {ws : List SQLVal}
    (hu : unstructureList s ps = (s2, .ok ws))
    (h : whereM s q clause ps = (s2, .ok q')) :
    q' = { q with where_clauses := q.where_clauses ++ ["(" ++ clause ++ ")"],
                  parameters := q.parameters ++ ws } := by
  simp only [whereM, hu, Prod.mk.injEq, Except.ok.injEq] at h
  exact h.2.symm


theorem unstructureList_length {s2 : ORMState} {ps : List Val} :
    ∀ {s : ORMState} {ws : List SQLVal},
    unstructureList s ps = (s2, .ok ws) → ws.length = ps.length := by
  induction ps with
  | nil =>
    intro s ws h
    simp only [unstructureList, Prod.mk.injEq, Except.ok.injEq] at h
    obtain ⟨-, h2⟩ := h
    subst h2
    rfl
  | cons v vs ih =>
    intro s ws h
    cases hv : unstructureVal s v with
    | mk s1 r =>
      cases r with
      | error e => simp [unstructureList, hv] at h
      | ok w =>
        cases hrest : unstructureList s1 vs with
        | mk s3 r2 =>
          cases r2 with
          | error e => simp [unstructureList, hv, hrest] at h
          | ok ws2 =>
            simp only [unstructureList, hv, hrest, Prod.mk.injEq, Except.ok.injEq] at h
            obtain ⟨hs, hw⟩ := h
            subst hs
            rw [← hw]
            simpa using ih hrest

theorem get_left_join_type_spec {s : ORMState} {q q1 : SelectSt} {attr : Option String}
    {lt : PyT} (h : get_left_join_type s q attr = .ok (q1, lt)) :
    q1 = { q with join_attributes := q.join_attributes ++ [attr.getD SQLITE_ROWID] } := by
  cases attr with
  | none =>
    simp only [get_left_join_type, Except.ok.injEq, Prod.mk.injEq] at h
    simp [← h.1, Option.getD]
  | some a =>
    rw [get_left_join_type] at h
    cases hf : find_fieldT s { nty := NTy.nCls q.dataclass, opt := false } a with
    | error e => rw [hf] at h; cases h
    | ok fld =>
      rw [hf] at h
      simp only [Except.ok.injEq, Prod.mk.injEq] at h
      simp [← h.1, Option.getD]

theorem handle_right_join_type_spec {s : ORMState} {q1 q2 : SelectSt} {lt oc : PyT}
    {oattr : Option String} (h : handle_right_join_type s q1 lt oc oattr = .ok q2) :
    q2 = { q1 with join_other_attributes :=
      q1.join_other_attributes ++ [oattr.getD SQLITE_ROWID] } := by
  cases oattr with
  | none =>
    rw [handle_right_join_type] at h
    by_cases hlt : lt = oc
    · rw [if_pos hlt] at h
      injection h with h2
      simp [← h2, Option.getD]
    · rw [if_neg hlt] at h; cases h
  | some a =>
    cases hf : find_fieldT s oc a with
    | error e => simp [handle_right_join_type, hf] at h
    | ok fld =>
      simp only [handle_right_join_type, hf] at h
      by_cases hlt : lt = fld.ty
      · rw [if_pos hlt] at h
        injection h with h2
        simp [← h2, Option.getD]
      · rw [if_neg hlt] at h; cases h

theorem get_join_tableM_spec {s s2 : ORMState} {oc : PyT} {jtbl : String}
    (h : get_join_tableM s oc = .ok (s2, jtbl)) :
    ∃ fields, s.classes jtbl = some fields := by
  rw [get_join_tableM] at h
  cases hgcf : get_class_fieldsT s oc with
  | error e => rw [hgcf] at h; cases e <;> simp at h
  | ok p3 =>
    obtain ⟨s3, tbl3, fields3⟩ := p3
    rw [hgcf] at h
    simp only [Except.ok.injEq, Prod.mk.injEq] at h
    obtain ⟨-, htbl⟩ := h
    subst htbl
    rw [get_class_fieldsT] at hgcf
    by_cases hopt : oc.opt = true
    · rw [if_pos hopt] at hgcf; cases hgcf
    · rw [if_neg hopt] at hgcf
      cases hnty : oc.nty with
      | nCls c0 =>
        rw [hnty] at hgcf
        have hgcf' : get_class_fieldsC s c0 = .ok (s3, tbl3, fields3) := hgcf
        have hs := get_class_fieldsC_spec hgcf'
        exact ⟨fields3, by rw [hs.1]; exact hs.2.1⟩
      | nInt => rw [hnty] at hgcf; cases hgcf
      | nFloat => rw [hnty] at hgcf; cases hgcf
      | nStr => rw [hnty] at hgcf; cases hgcf
      | nDate => rw [hnty] at hgcf; cases hgcf
      | nDatetime => rw [hnty] at hgcf; cases hgcf
      | nKeyType => rw [hnty] at hgcf; cases hgcf
      | nOther tag => rw [hnty] at hgcf; cases hgcf

/-- Structure of a successful `join`: exactly one entry is appended to each of
the four join lists; a nested select contributes its parenthesized statement as
the table and its parameters prepended, anything else contributes the resolved
table name and leaves the parameters alone; the where list never changes. -/
theorem join_select_ok_spec {s : ORMState} {q : SelectSt} {attr oattr : Option String}
    {dos : Option JoinOther} {s' : ORMState} {q' : SelectSt}
    (h : join_select s q attr dos oattr = .ok (s', q')) :
    ∃ jtbl : String,
      (∃ fields, s.classes jtbl = some fields) ∧
      q'.dataclass = q.dataclass ∧ q'.table = q.table ∧ q'.fields = q.fields ∧
      q'.join_attributes = q.join_attributes ++ [attr.getD SQLITE_ROWID] ∧
      q'.join_other_attributes = q.join_other_attributes ++ [oattr.getD SQLITE_ROWID] ∧
      q'.join_aliases = q.join_aliases ++ [attr.getD jtbl] ∧
      q'.where_clauses = q.where_clauses ∧
      ((∃ sq, dos = some (.sub sq) ∧
          q'.join_tables = q.join_tables ++ ["( " ++ get_statement sq ++ " )"] ∧
          q'.parameters = sq.parameters ++ q.parameters) ∨
       ((dos = none ∨ ∃ c0, dos = some (.inst c0)) ∧
          q'.join_tables = q.join_tables ++ [jtbl] ∧
          q'.parameters = q.parameters)) := by
  cases hval : validate_join_arguments attr dos oattr with
  | error e => simp [join_select, hval] at h
  | ok u =>
    cases hleft : get_left_join_type s q attr with
    | error e => simp [join_select, hval, hleft] at h
    | ok p =>
      obtain ⟨q1, lt⟩ := p
      cases hhr : handle_right_join_type s q1 lt (get_other_join_class dos lt) oattr with
      | error e => simp [join_select, hval, hleft, hhr] at h
      | ok q2 =>
        cases hjt : get_join_tableM s (get_other_join_class dos lt) with
        | error e => simp [join_select, hval, hleft, hhr, hjt] at h
        | ok p2 =>
          obtain ⟨s2, jtbl⟩ := p2
          simp only [join_select, hval, hleft, hhr, hjt, Except.ok.injEq, Prod.mk.injEq] at h
          obtain ⟨-, hq'⟩ := h
          have hq1 := get_left_join_type_spec hleft
          have hq2 := handle_right_join_type_spec hhr
          have hjcls := get_join_tableM_spec hjt
          refine ⟨jtbl, hjcls, ?_⟩
          subst hq2
          subst hq1
          cases attr with
          | none =>
            cases dos with
            | none =>
              rw [← hq']
              exact ⟨rfl, rfl, rfl, rfl, rfl, rfl, rfl, Or.inr ⟨Or.inl rfl, rfl, rfl⟩⟩
            | some jo =>
              cases jo with
              | inst c0 =>
                rw [← hq']
                exact ⟨rfl, rfl, rfl, rfl, rfl, rfl, rfl, Or.inr ⟨Or.inr ⟨c0, rfl⟩, rfl, rfl⟩⟩
              | sub sq =>
                rw [← hq']
                exact ⟨rfl, rfl, rfl, rfl, rfl, rfl, rfl, Or.inl ⟨sq, rfl, rfl, rfl⟩⟩
          | some a =>
            cases dos with
            | none =>
              rw [← hq']
              exact ⟨rfl, rfl, rfl, rfl, rfl, rfl, rfl, Or.inr ⟨Or.inl rfl, rfl, rfl⟩⟩
            | some jo =>
              cases jo with
              | inst c0 =>
                rw [← hq']
                exact ⟨rfl, rfl, rfl, rfl, rfl, rfl, rfl, Or.inr ⟨Or.inr ⟨c0, rfl⟩, rfl, rfl⟩⟩
              | sub sq =>
                rw [← hq']
                exact ⟨rfl, rfl, rfl, rfl, rfl, rfl, rfl, Or.inl ⟨sq, rfl, rfl, rfl⟩⟩

/-- Per-join placeholder bookkeeping for a builder: `blocks` records, in join
order, the parameter block contributed by each join's table fragment (empty for
a plain table), and `pw` the where-clause parameters in clause order (i.e. the
order in which the corresponding placeholders occur in the compiled text).  The
first component is the heart of C4: the accumulated `parameters` list carries
the sub-query blocks in *reverse* join order, ahead of the where parameters. -/
structure QInv (q : SelectSt) (blocks : List (List SQLVal)) (pw : List SQLVal) : Prop where
  params_eq : q.parameters = blocks.reverse.flatten ++ pw
  tables_count : q.join_tables.map qCount = blocks.map List.length
  wheres_count : qCountSum q.where_clauses = pw.length
  len_aliases : q.join_aliases.length = q.join_tables.length
  len_attrs : q.join_attributes.length = q.join_tables.length
  len_oattrs : q.join_other_attributes.length = q.join_tables.length
  noq_table : qCount q.table = 0
  noq_fields : ∀ f ∈ q.fields, qCount f.name = 0
  noq_attrs : ∀ a ∈ q.join_attributes, qCount a = 0
  noq_aliases : ∀ a ∈ q.join_aliases, qCount a = 0 ∧ a ≠ ""
  noq_oattrs : ∀ a ∈ q.join_other_attributes, qCount a = 0

theorem qCount_comma_separated_names {fields : List FieldT} {table : Option String}
    (hf : ∀ f ∈ fields, qCount f.name = 0)
    (ht : ∀ t, table = some t → qCount t = 0) (rid : Bool) :
    qCount (comma_separated_names fields rid table) = 0 := by
  cases table with
  | none =>
    have hnames : qCount (pyJoin ", " (fields.map fun f => f.name)) = 0 := by
      rw [qCount_pyJoin (by decide)]
      induction fields with
      | nil => simp [qCountSum]
      | cons f fs ih =>
        simp only [List.map_cons, qCountSum, List.sum_cons] at *
        rw [hf f (by simp)]
        simpa using ih fun g hg => hf g (by simp [hg])
    cases rid with
    | true => simp [comma_separated_names, qCount_append, hnames]; decide
    | false => simpa [comma_separated_names] using hnames
  | some t =>
    have ht0 : qCount t = 0 := ht t rfl
    have hnames : qCount (pyJoin ", " (fields.map fun f => t ++ "." ++ f.name)) = 0 := by
      rw [qCount_pyJoin (by decide)]
      induction fields with
      | nil => simp [qCountSum]
      | cons f fs ih =>
        simp only [List.map_cons, qCountSum, List.sum_cons] at *
        have : qCount (t ++ "." ++ f.name) = 0 := by
          rw [qCount_append, qCount_append, ht0, hf f (by simp)]
          decide
        rw [this]
        simpa using ih fun g hg => hf g (by simp [hg])
    cases rid with
    | true =>
      simp [comma_separated_names, qCount_append, hnames, ht0]
      decide
    | false => simpa [comma_separated_names] using hnames

theorem qCount_join_entries {root : String} (hroot : qCount root = 0) :
    ∀ (l1 l2 l3 l4 : List String),
    l2.length = l1.length → l3.length = l1.length → l4.length = l1.length →
    (∀ a ∈ l2, qCount a = 0 ∧ a ≠ "") → (∀ a ∈ l3, qCount a = 0) →
    (∀ a ∈ l4, qCount a = 0) →
    qCountSum ((l1.zip (l2.zip (l3.zip l4))).map
      fun p => join_entry root p.1 p.2.1 p.2.2.1 p.2.2.2) = qCountSum l1 := by
  intro l1
  induction l1 with
  | nil =>
    intro l2 l3 l4 _ _ _ _ _ _
    simp [qCountSum]
  | cons x xs ih =>
    intro l2 l3 l4 h2 h3 h4 n2 n3 n4
    cases l2 with
    | nil => simp at h2
    | cons y ys =>
      cases l3 with
      | nil => simp at h3
      | cons z zs =>
        cases l4 with
        | nil => simp at h4
        | cons w ws =>
          have hy := n2 y (by simp)
          have hz := n3 z (by simp)
          have hw := n4 w (by simp)
          have hentry : qCount (join_entry root x y z w) = qCount x := by
            rw [join_entry, if_neg hy.2]
            simp only [qCount_append, hroot, hy.1, hz, hw]
            have c1 : qCount "JOIN " = 0 := by decide
            have c2 : qCount " " = 0 := by decide
            have c3 : qCount " ON " = 0 := by decide
            have c4 : qCount "." = 0 := by decide
            have c5 : qCount " = " = 0 := by decide
            omega
          have hys : ys.length = xs.length := by simpa using h2
          have hzs : zs.length = xs.length := by simpa using h3
          have hws : ws.length = xs.length := by simpa using h4
          have hrec := ih ys zs ws hys hzs hws
            (fun a ha => n2 a (by simp [ha])) (fun a ha => n3 a (by simp [ha]))
            (fun a ha => n4 a (by simp [ha]))
          simp only [List.zip_cons_cons, List.map_cons, qCountSum, List.sum_cons]
          simp only [qCountSum] at hrec
          rw [hentry, hrec]

/-- Placeholders in the compiled statement come only from the join-table
fragments and the where clauses (identifiers contain no `?`). -/
theorem qCount_get_statement {q : SelectSt}
    (htbl : qCount q.table = 0)
    (hfields : ∀ f ∈ q.fields, qCount f.name = 0)
    (hattrs : ∀ a ∈ q.join_attributes, qCount a = 0)
    (haliases : ∀ a ∈ q.join_aliases, qCount a = 0 ∧ a ≠ "")
    (hoattrs : ∀ a ∈ q.join_other_attributes, qCount a = 0)
    (hlen1 : q.join_aliases.length = q.join_tables.length)
    (hlen2 : q.join_attributes.length = q.join_tables.length)
    (hlen3 : q.join_other_attributes.length = q.join_tables.length) :
    qCount (get_statement q) = qCountSum q.join_tables + qCountSum q.where_clauses := by
  have hcols : ∀ t : Option String, (∀ u, t = some u → qCount u = 0) →
      qCount (comma_separated_names q.fields true t) = 0 := fun t ht =>
    qCount_comma_separated_names hfields ht true
  have hjoins : qCount (pyJoin " "
      ((q.join_tables.zip (q.join_aliases.zip
        (q.join_attributes.zip q.join_other_attributes))).map
        fun p => join_entry q.table p.1 p.2.1 p.2.2.1 p.2.2.2)) =
      qCountSum q.join_tables := by
    rw [qCount_pyJoin (by decide)]
    exact qCount_join_entries htbl q.join_tables q.join_aliases q.join_attributes
      q.join_other_attributes hlen1 hlen2 hlen3 haliases hattrs hoattrs
  have hwheres : qCount (pyJoin " AND " q.where_clauses) = qCountSum q.where_clauses :=
    qCount_pyJoin (by decide) q.where_clauses
  rw [get_statement]
  simp only [qCount_append]
  rw [hjoins, hwheres]
  have hsel : qCount "SELECT " = 0 := by decide
  have hsp : qCount " " = 0 := by decide
  have hfrom : qCount " FROM " = 0 := by decide
  have hdist : qCount (if 0 < q.join_attributes.length then "DISTINCT" else "") = 0 := by
    split <;> decide
  have hwkw : qCount (if pyJoin " AND " q.where_clauses = "" then "" else "WHERE") = 0 := by
    split <;> decide
  have hc : qCount (comma_separated_names q.fields true
      (if 0 < q.join_attributes.length then some q.table else none)) = 0 := by
    apply hcols
    intro u hu
    split at hu
    · injection hu with hu2
      rw [← hu2]
      exact htbl
    · cases hu
  omega

/-- Builder histories: every `Select` a program can construct by chaining
`select`, `.where(...)` and `.join(...)` calls (nested selects included),
annotated with the per-join parameter blocks and where parameters.  The
side conditions record the usual sanity of SQL identifiers (class, field and
attribute names contain no `?` and are nonempty where used as aliases) and
that a where clause carries exactly one `?` per parameter. -/
inductive Reaches : ORMState → ORMState → SelectSt → List (List SQLVal) → List SQLVal → Prop where
  | base {s s' : ORMState} {c : ClsName} {q : SelectSt} :
      selectM s c = .ok (s', q) →
      qCount c = 0 →
      (∀ f ∈ q.fields, qCount f.name = 0) →
      Reaches s s' q [] []
  | step_where {s0 s1 s2 : ORMState} {q q' : SelectSt} {blocks : List (List SQLVal)}
      {pw : List SQLVal} {clause : String} {ps : List Val} {ws : List SQLVal} :
      Reaches s0 s1 q blocks pw →
      qCount clause = ps.length →
      unstructureList s1 ps = (s2, .ok ws) →
      whereM s1 q clause ps = (s2, .ok q') →
      Reaches s0 s2 q' blocks (pw ++ ws)
  | step_join_plain {s0 s1 s2 : ORMState} {q q' : SelectSt} {blocks : List (List SQLVal)}
      {pw : List SQLVal} {attr oattr : Option String} {dos : Option JoinOther} :
      Reaches s0 s1 q blocks pw →
      (dos = none ∨ ∃ c0, dos = some (.inst c0)) →
      join_select s1 q attr dos oattr = .ok (s2, q') →
      (∀ a, attr = some a → qCount a = 0) →
      (∀ a, oattr = some a → qCount a = 0) →
      (∀ t, q'.join_aliases = q.join_aliases ++ [t] → qCount t = 0 ∧ t ≠ "") →
      (∀ t, q'.join_tables = q.join_tables ++ [t] → qCount t = 0) →
      Reaches s0 s2 q' (blocks ++ [[]]) pw
  | step_join_sub {s0 s1 s2 s3 : ORMState} {q qsub q' : SelectSt}
      {blocks sblocks : List (List SQLVal)} {pw spw : List SQLVal}
      {attr oattr : Option String} :
      Reaches s0 s1 q blocks pw →
      Reaches s1 s2 qsub sblocks spw →
      join_select s2 q attr (some (.sub qsub)) oattr = .ok (s3, q') →
      (∀ a, attr = some a → qCount a = 0) →
      (∀ a, oattr = some a → qCount a = 0) →
      (∀ t, q'.join_aliases = q.join_aliases ++ [t] → qCount t = 0 ∧ t ≠ "") →
      Reaches s0 s3 q' (blocks ++ [qsub.parameters]) pw

/-- The bookkeeping invariant holds along every builder history. -/
theorem reaches_invariant {s0 s1 : ORMState} {q : SelectSt}
    {blocks : List (List SQLVal)} {pw : List SQLVal}
    (h : Reaches s0 s1 q blocks pw) : QInv q blocks pw := by
  induction h with
  | base hsel hc hfields =>
    obtain ⟨-, htbl, ⟨fields, -, hf⟩, h4, h5, h6, h7, h8, h9⟩ := selectM_spec hsel
    exact ⟨by simp [h9], by simp [h6], by simp [h8, qCountSum],
      by simp [h5, h6], by simp [h4, h6], by simp [h7, h6],
      htbl ▸ hc, hfields, by simp [h4], by simp [h5], by simp [h7]⟩
  | step_where hr hclause hu hw ih =>
    rename_i s0' s1' s2' q0 q' blocks' pw' clause ps ws
    have hq' := whereM_spec hu hw
    subst hq'
    obtain ⟨p1, p2, p3, p4, p5, p6, p7, p8, p9, p10, p11⟩ := ih
    refine ⟨?_, by simpa using p2, ?_, by simpa using p4, by simpa using p5,
      by simpa using p6, p7, p8, by simpa using p9, by simpa using p10,
      by simpa using p11⟩
    · simp only []
      rw [p1, List.append_assoc]
    · simp only []
      rw [qCountSum_append, p3]
      have hp1 : qCount "(" = 0 := by decide
      have hp2 : qCount ")" = 0 := by decide
      have : qCountSum ["(" ++ clause ++ ")"] = ps.length := by
        simp [qCountSum, qCount_append, hclause, hp1, hp2]
      rw [this, List.length_append, unstructureList_length hu]
  | step_join_plain hr hdos hj hattr hoattr halias htbl ih =>
    rename_i s0' s1' s2' q0 q' blocks' pw' attr oattr dos
    obtain ⟨jtbl, -, e1, e2, e3, e4, e5, e6, e7, e8⟩ := join_select_ok_spec hj
    have hjt : q'.join_tables = q0.join_tables ++ [jtbl] ∧ q'.parameters = q0.parameters := by
      rcases e8 with ⟨sq, hsq, -, -⟩ | ⟨-, hjt, hp⟩
      · rcases hdos with hd | ⟨c0, hd⟩ <;> rw [hd] at hsq <;> cases hsq
      · exact ⟨hjt, hp⟩
    obtain ⟨p1, p2, p3, p4, p5, p6, p7, p8, p9, p10, p11⟩ := ih
    have hjtbl0 : qCount jtbl = 0 := htbl jtbl hjt.1
    refine ⟨?_, ?_, ?_, ?_, ?_, ?_, ?_, ?_, ?_, ?_, ?_⟩
    · rw [hjt.2, p1]
      simp
    · rw [hjt.1]
      simp [p2, hjtbl0]
    · rw [e7, p3]
    · rw [e6, hjt.1]
      simp [p4]
    · rw [e4, hjt.1]
      simp [p5]
    · rw [e5, hjt.1]
      simp [p6]
    · rw [e2]; exact p7
    · rw [e3]; exact p8
    · rw [e4]
      intro a ha
      rcases List.mem_append.mp ha with hin | hin
      · exact p9 a hin
      · have : a = attr.getD SQLITE_ROWID := by simpa using hin
        subst this
        cases hax : attr with
        | none => simp [Option.getD, SQLITE_ROWID]; decide
        | some a0 =>
          have := hattr a0 hax
          simpa [Option.getD] using this
    · rw [e6]
      intro a ha
      rcases List.mem_append.mp ha with hin | hin
      · exact p10 a hin
      · have : a = attr.getD jtbl := by simpa using hin
        subst this
        exact halias _ e6
    · rw [e5]
      intro a ha
      rcases List.mem_append.mp ha with hin | hin
      · exact p11 a hin
      · have : a = oattr.getD SQLITE_ROWID := by simpa using hin
        subst this
        cases hax : oattr with
        | none => simp [Option.getD, SQLITE_ROWID]; decide
        | some a0 =>
          have := hoattr a0 hax
          simpa [Option.getD] using this
  | step_join_sub hr hsub hj hattr hoattr halias ih ihsub =>
    rename_i s0' s1' s2' s3' q0 qsub q' blocks' sblocks pw' spw attr oattr
    obtain ⟨jtbl, -, e1, e2, e3, e4, e5, e6, e7, e8⟩ := join_select_ok_spec hj
    have hjt : q'.join_tables = q0.join_tables ++ ["( " ++ get_statement qsub ++ " )"] ∧
        q'.parameters = qsub.parameters ++ q0.parameters := by
      rcases e8 with ⟨sq, hsq, hjt, hp⟩ | ⟨hbad, -, -⟩
      · injection hsq with hsq2
        injection hsq2 with hsq3
        subst hsq3
        exact ⟨hjt, hp⟩
      · rcases hbad with hb | ⟨c0, hb⟩ <;> cases hb
    obtain ⟨p1, p2, p3, p4, p5, p6, p7, p8, p9, p10, p11⟩ := ih
    obtain ⟨sp1, sp2, sp3, sp4, sp5, sp6, sp7, sp8, sp9, sp10, sp11⟩ := ihsub
    have hsubcount : qCount ("( " ++ get_statement qsub ++ " )") = qsub.parameters.length := by
      rw [qCount_append, qCount_append]
      have hstmt := qCount_get_statement sp7 sp8 sp9 sp10 sp11 sp4 sp5 sp6
      rw [hstmt]
      have hjt2 : qCountSum qsub.join_tables = (sblocks.map List.length).sum := by
        simp [qCountSum, sp2]
      rw [hjt2, sp3, sp1]
      have c1 : qCount "( " = 0 := by decide
      have c2 : qCount " )" = 0 := by decide
      simp only [List.length_append, List.length_flatten, List.map_reverse,
        List.sum_reverse]
      omega
    refine ⟨?_, ?_, ?_, ?_, ?_, ?_, ?_, ?_, ?_, ?_, ?_⟩
    · rw [hjt.2, p1]
      simp
    · rw [hjt.1]
      simp [p2, hsubcount]
    · rw [e7, p3]
    · rw [e6, hjt.1]
      simp [p4]
    · rw [e4, hjt.1]
      simp [p5]
    · rw [e5, hjt.1]
      simp [p6]
    · rw [e2]; exact p7
    · rw [e3]; exact p8
    · rw [e4]
      intro a ha
      rcases List.mem_append.mp ha with hin | hin
      · exact p9 a hin
      · have : a = attr.getD SQLITE_ROWID := by simpa using hin
        subst this
        cases hax : attr with
        | none => simp [Option.getD, SQLITE_ROWID]; decide
        | some a0 =>
          have := hattr a0 hax
          simpa [Option.getD] using this
    · rw [e6]
      intro a ha
      rcases List.mem_append.mp ha with hin | hin
      · exact p10 a hin
      · have : a = attr.getD jtbl := by simpa using hin
        subst this
        exact halias _ e6
    · rw [e5]
      intro a ha
      rcases List.mem_append.mp ha with hin | hin
      · exact p11 a hin
      · have : a = oattr.getD SQLITE_ROWID := by simpa using hin
        subst this
        cases hax : oattr with
        | none => simp [Option.getD, SQLITE_ROWID]; decide
        | some a0 =>
          have := hoattr a0 hax
          simpa [Option.getD] using this

theorem flatten_eq_nil_of_all_nil {α : Type} :
    ∀ (l : List (List α)), (∀ x ∈ l, x = []) → l.flatten = [] := by
  intro l hl
  induction l with
  | nil => rfl
  | cons x xs ih =>
    have hx : x = [] := hl x (by simp)
    subst hx
    simp only [List.flatten_cons, List.nil_append]
    exact ih fun y hy => hl y (by simp [hy])

theorem flatten_reverse_of_at_most_one {α : Type} (blocks : List (List α))
    (h : (blocks.filter fun b => !b.isEmpty).length ≤ 1) :
    blocks.reverse.flatten = blocks.flatten := by
  induction blocks with
  | nil => rfl
  | cons b rest ih =>
    by_cases hb : b.isEmpty = true
    · have hb' : b = [] := by
        cases b
        · rfl
        · simp [List.isEmpty] at hb
      subst hb'
      have hr : (rest.filter fun b => !b.isEmpty).length ≤ 1 := by
        simpa [List.filter_cons] using h
      simp [ih hr]
    · have hbf : (!b.isEmpty) = true := by
        cases hx : b.isEmpty
        · rfl
        · exact absurd hx hb
      have hrest0 : (rest.filter fun b => !b.isEmpty).length = 0 := by
        rw [List.filter_cons, if_pos hbf] at h
        simpa using h
      have hall : ∀ x ∈ rest, x = [] := by
        intro x hx
        cases hxe : x.isEmpty
        · exfalso
          have hmem : x ∈ rest.filter fun b => !b.isEmpty :=
            List.mem_filter.mpr ⟨hx, by rw [hxe]; rfl⟩
          rw [List.length_eq_zero] at hrest0
          rw [hrest0] at hmem
          cases hmem
        · cases x
          · rfl
          · simp [List.isEmpty] at hxe
      have h1 : rest.flatten = [] := flatten_eq_nil_of_all_nil rest hall
      have h2 : rest.reverse.flatten = [] :=
        flatten_eq_nil_of_all_nil rest.reverse fun x hx => hall x (List.mem_reverse.mp hx)
      simp [h1, h2]

/--
C4 (amended): along every builder history, the accumulated parameter list
carries each joined sub-query's parameter block *prepended ahead of the where
parameters, in reverse join order*.  Whenever at most one joined sub-query
carries parameters, this coincides with the order of the placeholders in the
compiled SQL text (sub-query blocks in join order, ahead of the where
parameters, with matching placeholder counts); with two or more parameterized
sub-query joins the accumulated list is in reverse join order and positional
correspondence is lost (see the counterexample).
-/
theorem C4_parameters_match_placeholder_order (s0 s1 : ORMState) (q : SelectSt)
    (blocks : List (List SQLVal)) (pw : List SQLVal)
    (h : Reaches s0 s1 q blocks pw)
    (hone : (blocks.filter fun b => !b.isEmpty).length ≤ 1) :
    q.parameters = blocks.flatten ++ pw ∧
    q.join_tables.map qCount = blocks.map List.length ∧
    qCountSum q.where_clauses = pw.length ∧
    qCount (get_statement q) = blocks.flatten.length + pw.length := by
  have inv := reaches_invariant h
  refine ⟨?_, inv.tables_count, inv.wheres_count, ?_⟩
  · rw [inv.params_eq, flatten_reverse_of_at_most_one blocks hone]
  · rw [qCount_get_statement inv.noq_table inv.noq_fields inv.noq_attrs inv.noq_aliases
      inv.noq_oattrs inv.len_aliases inv.len_attrs inv.len_oattrs]
    have ht : qCountSum q.join_tables = (blocks.map List.length).sum := by
      simp [qCountSum, inv.tables_count]
    rw [ht, inv.wheres_count]
    simp [List.length_flatten]

/-! Concrete builder chains over the example schema, mirroring the repository's
query tests: `Select(Bar).join("some_foo", Select(Foo).where("Foo.a = ?", (n,)))`. -/

def exS1 : ORMState :=
  match selectM exReg "Bar" with | .ok (s, _) => s | .error _ => exReg

def exS2 : ORMState :=
  match selectM exS1 "Foo" with | .ok (s, _) => s | .error _ => exS1

def exQFoo : SelectSt :=
  match selectM exS1 "Foo" with | .ok (_, q) => q | .error _ => exQBar

def exS3 : ORMState := (whereM exS2 exQFoo "Foo.a = ?" [Val.vInt 1]).1

def exQFoo1 : SelectSt :=
  match whereM exS2 exQFoo "Foo.a = ?" [Val.vInt 1] with
  | (_, .ok q) => q
  | _ => exQFoo

def exS4 : ORMState :=
  match join_select exS3 exQBar (some "some_foo") (some (.sub exQFoo1)) none with
  | .ok (s, _) => s
  | .error _ => exS3

def exQJoin1 : SelectSt :=
  match join_select exS3 exQBar (some "some_foo") (some (.sub exQFoo1)) none with
  | .ok (_, q) => q
  | .error _ => exQBar

def exS5 : ORMState := (whereM exS4 exQFoo "Foo.a = ?" [Val.vInt 2]).1

def exQFoo2 : SelectSt :=
  match whereM exS4 exQFoo "Foo.a = ?" [Val.vInt 2] with
  | (_, .ok q) => q
  | _ => exQFoo

def exQJoin2 : SelectSt :=
  match join_select exS5 exQJoin1 (some "some_foo") (some (.sub exQFoo2)) none with
  | .ok (_, q) => q
  | .error _ => exQBar

/-- Witness for C4 at the single-parameterized-sub-query chain. -/
theorem C4_parameters_match_placeholder_order_witness :
    exQJoin1.parameters = ([[SQLVal.sqlInt 1]] : List (List SQLVal)).flatten ++ ([] : List SQLVal) ∧
    exQJoin1.join_tables.map qCount = ([[SQLVal.sqlInt 1]] : List (List SQLVal)).map List.length ∧
    qCountSum exQJoin1.where_clauses = ([] : List SQLVal).length ∧
    qCount (get_statement exQJoin1) =
      ([[SQLVal.sqlInt 1]] : List (List SQLVal)).flatten.length + ([] : List SQLVal).length := by
  have hbase : Reaches exReg exS1 exQBar [] [] :=
    .base (show selectM exReg "Bar" = Except.ok (exS1, exQBar) from rfl)
      (by decide) (by decide)
  have hfoo : Reaches exS1 exS2 exQFoo [] [] :=
    .base (show selectM exS1 "Foo" = Except.ok (exS2, exQFoo) from rfl)
      (by decide) (by decide)
  have hw : Reaches exS1 exS3 exQFoo1 [] ([] ++ [SQLVal.sqlInt 1]) :=
    .step_where hfoo (by decide)
      (show unstructureList exS2 [Val.vInt 1] = (exS3, Except.ok [SQLVal.sqlInt 1]) from rfl)
      (show whereM exS2 exQFoo "Foo.a = ?" [Val.vInt 1] = (exS3, Except.ok exQFoo1) from rfl)
  have hj : Reaches exReg exS4 exQJoin1 ([] ++ [exQFoo1.parameters]) [] :=
    .step_join_sub hbase hw
      (show join_select exS3 exQBar (some "some_foo") (some (JoinOther.sub exQFoo1)) none =
        Except.ok (exS4, exQJoin1) from rfl)
      (fun a ha => by cases ha; decide)
      (fun a ha => by cases ha)
      (fun t ht => by
        have h2 : ["some_foo"] = [t] := ht
        injection h2 with h3 h4
        subst h3
        decide)
  have hj' : Reaches exReg exS4 exQJoin1 [exQFoo1.parameters] [] := by simpa using hj
  exact C4_parameters_match_placeholder_order exReg exS4 exQJoin1 [exQFoo1.parameters] []
    hj' (by decide)

/--
C4 counterexample: two joined sub-queries each carrying one parameter.  The
first JOIN fragment in the compiled text is sub-query 1's (parameter 1), the
second is sub-query 2's (parameter 2), so positional correspondence requires
the accumulated list `[1, 2]`; the builder's prepending
(`self.parameters = dataclass_or_select.parameters + self.parameters`) instead
produces `[2, 1]` — the claim's universal left-to-right correspondence fails.
-/
theorem C4_two_parameterized_subqueries_lose_order :
    exQFoo1.parameters = [SQLVal.sqlInt 1] ∧
    exQFoo2.parameters = [SQLVal.sqlInt 2] ∧
    exQJoin2.join_tables =
      ["( " ++ get_statement exQFoo1 ++ " )", "( " ++ get_statement exQFoo2 ++ " )"] ∧
    qCount (get_statement exQFoo1) = 1 ∧
    qCount (get_statement exQFoo2) = 1 ∧
    exQJoin2.parameters = [SQLVal.sqlInt 2, SQLVal.sqlInt 1] ∧
    exQJoin2.parameters ≠ exQFoo1.parameters ++ exQFoo2.parameters := by
  refine ⟨rfl, rfl, rfl, by decide, by decide, rfl, by decide⟩

/-! ## Frame reasoning for instance construction and rehydration -/

/-- `TouchOnly s s' o`: going from `s` to `s'` changed at most the heap entry
and state record of object `o` (everything else, including the database and
the registry, is untouched). -/
structure TouchOnly (s s' : ORMState) (o : ObjId) : Prop where
  nextObj_eq : s'.nextObj = s.nextObj
  db_eq : s'.db = s.db
  classes_eq : s'.classes = s.classes
  registered_eq : s'.registered = s.registered
  descriptors_eq : s'.descriptors = s.descriptors
  installCount_eq : s'.installCount = s.installCount
  insLog_eq : s'.insLog = s.insLog
  known_frame : ∀ i, i ≠ o → s'.known i = s.known i
  heap_frame : ∀ i, i ≠ o → s'.heap i = s.heap i

theorem TouchOnly.refl (s : ORMState) (o : ObjId) : TouchOnly s s o :=
  ⟨rfl, rfl, rfl, rfl, rfl, rfl, rfl, fun _ _ => rfl, fun _ _ => rfl⟩

theorem TouchOnly.trans {s1 s2 s3 : ORMState} {o : ObjId}
    (h1 : TouchOnly s1 s2 o) (h2 : TouchOnly s2 s3 o) : TouchOnly s1 s3 o :=
  ⟨h2.nextObj_eq.trans h1.nextObj_eq, h2.db_eq.trans h1.db_eq,
   h2.classes_eq.trans h1.classes_eq, h2.registered_eq.trans h1.registered_eq,
   h2.descriptors_eq.trans h1.descriptors_eq, h2.installCount_eq.trans h1.installCount_eq,
   h2.insLog_eq.trans h1.insLog_eq,
   fun i hi => (h2.known_frame i hi).trans (h1.known_frame i hi),
   fun i hi => (h2.heap_frame i hi).trans (h1.heap_frame i hi)⟩

theorem get_dcorm_state_touch (s : ORMState) (o : ObjId) :
    TouchOnly s (get_dcorm_state s o).1 o := by
  rw [get_dcorm_state]
  cases s.known o with
  | some r => exact TouchOnly.refl s o
  | none =>
    exact ⟨rfl, rfl, rfl, rfl, rfl, rfl, rfl,
      fun i hi => by simp [updN, hi], fun i hi => rfl⟩

theorem fix_preexisting_touch (s : ORMState) (o : ObjId) (name : String) :
    TouchOnly s (fix_preexisting s o name) o := by
  cases hh : s.heap o with
  | none =>
    simp only [fix_preexisting, hh]
    exact TouchOnly.refl s o
  | some obj =>
    cases hd : alookup obj.dict name with
    | none =>
      simp only [fix_preexisting, hh, hd]
      exact TouchOnly.refl s o
    | some v =>
      simp only [fix_preexisting, hh, hd]
      by_cases hv : v = Val.vNone
      · rw [if_pos hv]
        exact TouchOnly.refl s o
      · rw [if_neg hv]
        have h1 := get_dcorm_state_touch s o
        exact ⟨h1.nextObj_eq, h1.db_eq, h1.classes_eq, h1.registered_eq, h1.descriptors_eq,
          h1.installCount_eq, h1.insLog_eq,
          fun i hi => by simp only [updN, if_neg hi]; exact h1.known_frame i hi,
          fun i hi => by simp only [updN, if_neg hi]; exact h1.heap_frame i hi⟩

theorem ref_set_touch (s : ORMState) (o : ObjId) (name : String) (v : Val) :
    TouchOnly s (ref_set s o name v) o := by
  rw [ref_set]
  have h1 := get_dcorm_state_touch s o
  have h2 := fix_preexisting_touch (get_dcorm_state s o).1 o name
  have h12 := h1.trans h2
  set s2 := fix_preexisting (get_dcorm_state s o).1 o name
  have h3 := get_dcorm_state_touch s2 o
  have h123 := h12.trans h3
  exact ⟨h123.nextObj_eq, h123.db_eq, h123.classes_eq, h123.registered_eq,
    h123.descriptors_eq, h123.installCount_eq, h123.insLog_eq,
    fun i hi => by simp only [updN, if_neg hi]; exact h123.known_frame i hi,
    fun i hi => h123.heap_frame i hi⟩

theorem setattrM_touch (s : ORMState) (o : ObjId) (f : FieldT) (v : Val) :
    TouchOnly s (setattrM s o f v) o := by
  cases hh : s.heap o with
  | none =>
    simp only [setattrM, hh]
    exact TouchOnly.refl s o
  | some obj =>
    simp only [setattrM, hh]
    by_cases hdesc : (s.descriptors obj.cls && is_ref_field s f) = true
    · rw [if_pos hdesc]
      exact ref_set_touch s o f.name v
    · rw [if_neg hdesc]
      exact ⟨rfl, rfl, rfl, rfl, rfl, rfl, rfl,
        fun i hi => rfl, fun i hi => by simp [updN, hi]⟩

theorem setFields_touch (s : ORMState) (o : ObjId) :
    ∀ (fields : List FieldT) (vals : List Val), TouchOnly s (setFields s o fields vals) o := by
  intro fields
  induction fields generalizing s with
  | nil =>
    intro vals
    simp only [setFields]
    exact TouchOnly.refl s o
  | cons f fs ih =>
    intro vals
    cases vals with
    | nil =>
      simp only [setFields]
      exact TouchOnly.refl s o
    | cons v vs =>
      simp only [setFields]
      exact (setattrM_touch s o f v).trans (ih (setattrM s o f v) vs)

theorem set_self_rowid_touch (s : ORMState) (o : ObjId) (k : Nat) :
    TouchOnly s (set_self_rowid s o k) o := by
  rw [set_self_rowid]
  have h1 := get_dcorm_state_touch s o
  exact ⟨h1.nextObj_eq, h1.db_eq, h1.classes_eq, h1.registered_eq, h1.descriptors_eq,
    h1.installCount_eq, h1.insLog_eq,
    fun i hi => by simp only [updN, if_neg hi]; exact h1.known_frame i hi,
    fun i hi => h1.heap_frame i hi⟩

/-- Whether a field of class `c` is governed by an installed `Reference`
descriptor in state `s`. -/
def isManaged (s : ORMState) (c : ClsName) (f : FieldT) : Bool :=
  s.descriptors c && is_ref_field s f

/-- The `__dict__` contents produced by running the dataclass `__init__`
assignments: descriptor-managed fields skip the dict. -/
def specDict (rf : FieldT → Bool) : List FieldT → List Val → List (String × Val) →
    List (String × Val)
  | [], _, d => d
  | _, [], d => d
  | f :: fs, v :: vs, d =>
    if rf f then specDict rf fs vs d else specDict rf fs vs (aset d f.name v)

/-- The state record produced by the same assignments: descriptor-managed
fields store their override (creating the record on first use). -/
def specKn (rf : FieldT → Bool) : List FieldT → List Val → Option StateRec →
    Option StateRec
  | [], _, kn => kn
  | _, [], kn => kn
  | f :: fs, v :: vs, kn =>
    if rf f then
      let r := kn.getD { rowid := none, overrides := [] }
      specKn rf fs vs (some { r with overrides := aset r.overrides f.name v })
    else specKn rf fs vs kn

theorem updN_updN {β : Type} (f : Nat → Option β) (k : Nat) (v w : β) :
    updN (updN f k v) k w = updN f k w := by
  funext x
  by_cases hx : x = k <;> simp [updN, hx]

/-- `_get_dcorm_state` on an unknown instance creates the empty state record. -/
theorem get_dcorm_state_none {s : ORMState} {o : ObjId} (h : s.known o = none) :
    get_dcorm_state s o =
      ({ s with known := updN s.known o { rowid := none, overrides := [] } },
        { rowid := none, overrides := [] }) := by
  simp only [get_dcorm_state, h]

/-- `_get_dcorm_state` on a known instance is a pure lookup. -/
theorem get_dcorm_state_some {s : ORMState} {o : ObjId} {r : StateRec}
    (h : s.known o = some r) : get_dcorm_state s o = (s, r) := by
  simp only [get_dcorm_state, h]

/-- `_fix_preexisting` is the identity when the instance dict does not bind the
name. -/
theorem fix_preexisting_noop {s : ORMState} {o : ObjId} {name : String}
    {c : ClsName} {dict0 : List (String × Val)}
    (hh : s.heap o = some { cls := c, dict := dict0 })
    (hd : alookup dict0 name = none) : fix_preexisting s o name = s := by
  simp only [fix_preexisting, hh, hd]

/-- Explicit form of a successful `Reference.__set__` when no pre-existing
plain attribute shadows the name. -/
theorem ref_set_compute {s : ORMState} {o : ObjId} {c : ClsName}
    {dict0 : List (String × Val)} {name : String} {v : Val}
    (hh : s.heap o = some { cls := c, dict := dict0 })
    (hd : alookup dict0 name = none) :
    ref_set s o name v =
      { s with known := updN s.known o
                        { rowid := ((s.known o).getD { rowid := none, overrides := [] }).rowid,
                          overrides := aset
                            ((s.known o).getD { rowid := none, overrides := [] }).overrides
                            name v } } := by
  cases hkn : s.known o with
  | none =>
    have h1 := get_dcorm_state_none hkn
    have hh1 : ({ s with known := updN s.known o { rowid := none, overrides := [] } }
        : ORMState).heap o = some { cls := c, dict := dict0 } := hh
    have h2 := fix_preexisting_noop hh1 hd
    have h3 : ({ s with known := updN s.known o { rowid := none, overrides := [] } }
        : ORMState).known o = some { rowid := none, overrides := [] } := by
      simp [updN]
    have h4 := get_dcorm_state_some h3
    simp only [ref_set, h1, h2, h4, Option.getD_none]
    rw [updN_updN]
  | some r =>
    have h1 := get_dcorm_state_some hkn
    have h2 := fix_preexisting_noop hh hd
    simp only [ref_set, h1, h2, Option.getD_some]

/-- Explicit form of `setattrM` on a live object. -/
theorem setattrM_compute {s : ORMState} {o : ObjId} {c : ClsName}
    {dict0 : List (String × Val)} {f : FieldT} (v : Val)
    (hh : s.heap o = some { cls := c, dict := dict0 })
    (hd : alookup dict0 f.name = none) :
    setattrM s o f v =
      (if isManaged s c f then
        { s with known := updN s.known o
                          { rowid := ((s.known o).getD { rowid := none, overrides := [] }).rowid,
                            overrides := aset
                              ((s.known o).getD { rowid := none, overrides := [] }).overrides
                              f.name v } }
      else
        { s with heap := updN s.heap o { cls := c, dict := aset dict0 f.name v } }) := by
  simp only [setattrM, hh]
  by_cases hm : isManaged s c f = true
  · rw [if_pos (show (s.descriptors c && is_ref_field s f) = true from hm), if_pos hm]
    exact ref_set_compute hh hd
  · rw [if_neg (show ¬(s.descriptors c && is_ref_field s f) = true from hm), if_neg hm]

/-- Explicit form of `state[SELF_ROW_ID] = k`. -/
theorem set_self_rowid_compute (s : ORMState) (o : ObjId) (k : Nat) :
    set_self_rowid s o k =
      { s with known := updN s.known o
                        { rowid := some k,
                          overrides :=
                            ((s.known o).getD { rowid := none, overrides := [] }).overrides } } := by
  cases hkn : s.known o with
  | none =>
    have h1 := get_dcorm_state_none hkn
    simp only [set_self_rowid, h1, Option.getD_none]
    rw [updN_updN]
  | some r =>
    have h1 := get_dcorm_state_some hkn
    simp only [set_self_rowid, h1, Option.getD_some]

/-- Running the dataclass `__init__` assignments over a live object with
duplicate-free field names whose dict does not yet bind them yields exactly the
specified dict and state record. -/
theorem setFields_spec {c : ClsName} :
    ∀ (fields : List FieldT) (vals : List Val) (s : ORMState) (o : ObjId)
    (dict0 : List (String × Val)),
    (fields.map FieldT.name).Nodup →
    s.heap o = some { cls := c, dict := dict0 } →
    (∀ f ∈ fields, alookup dict0 f.name = none) →
    (setFields s o fields vals).heap o =
      some { cls := c, dict := specDict (isManaged s c) fields vals dict0 } ∧
    (setFields s o fields vals).known o = specKn (isManaged s c) fields vals (s.known o) := by
  intro fields
  induction fields with
  | nil =>
    intro vals s o dict0 hnd hh hd0
    refine ⟨?_, ?_⟩
    · simp only [setFields, specDict]; exact hh
    · simp [setFields, specKn]
  | cons f fs ih =>
    intro vals s o dict0 hnd hh hd0
    cases vals with
    | nil =>
      refine ⟨?_, ?_⟩
      · simp only [setFields, specDict]; exact hh
      · simp [setFields, specKn]
    | cons v vs =>
      have hdf : alookup dict0 f.name = none := hd0 f (by simp)
      have hstep := setattrM_compute v hh hdf
      have hnd' : (fs.map FieldT.name).Nodup := (List.nodup_cons.mp (by simpa using hnd)).2
      have hfn : f.name ∉ fs.map FieldT.name := (List.nodup_cons.mp (by simpa using hnd)).1
      simp only [setFields, hstep]
      by_cases hm : isManaged s c f = true
      · rw [if_pos hm]
        set s1 : ORMState :=
          { s with known := updN s.known o
                            { rowid := ((s.known o).getD { rowid := none, overrides := [] }).rowid,
                              overrides := aset
                                ((s.known o).getD { rowid := none, overrides := [] }).overrides
                                f.name v } } with hs1
        have hh1 : s1.heap o = some { cls := c, dict := dict0 } := hh
        have hman1 : isManaged s1 c = isManaged s c := rfl
        have := ih vs s1 o dict0 hnd' hh1 (fun g hg => hd0 g (by simp [hg]))
        rw [hman1] at this
        refine ⟨?_, ?_⟩
        · rw [this.1]
          simp only [specDict, if_pos hm]
        · rw [this.2]
          simp only [specKn, if_pos hm]
          simp [updN]
      · rw [if_neg hm]
        have hm' : isManaged s c f = false := by
          cases hb : isManaged s c f
          · rfl
          · exact absurd hb hm
        set s1 : ORMState :=
          { s with heap := updN s.heap o { cls := c, dict := aset dict0 f.name v } } with hs1
        have hh1 : s1.heap o = some { cls := c, dict := aset dict0 f.name v } := by
          simp [hs1, updN]
        have hman1 : isManaged s1 c = isManaged s c := rfl
        have hd1 : ∀ g ∈ fs, alookup (aset dict0 f.name v) g.name = none := by
          intro g hg
          have hgne : g.name ≠ f.name := by
            intro he
            exact hfn (he ▸ List.mem_map_of_mem FieldT.name hg)
          rw [alookup_aset_other dict0 f.name g.name v hgne]
          exact hd0 g (by simp [hg])
        have := ih vs s1 o (aset dict0 f.name v) hnd' hh1 hd1
        rw [hman1] at this
        refine ⟨?_, ?_⟩
        · rw [this.1]
          simp only [specDict, hm', Bool.false_eq_true, if_false]
        · rw [this.2]
          simp only [specKn, hm', Bool.false_eq_true, if_false]

/-- Names absent from the remaining fields keep their binding across the
spec-built state record. -/
theorem specKn_preserve (rf : FieldT → Bool) :
    ∀ (fields : List FieldT) (vals : List Val) (kn : Option StateRec) (name : String),
    name ∉ fields.map FieldT.name →
    alookup ((specKn rf fields vals kn).getD { rowid := none, overrides := [] }).overrides
        name =
      alookup (kn.getD { rowid := none, overrides := [] }).overrides name := by
  intro fields
  induction fields with
  | nil =>
    intro vals kn name h
    simp only [specKn]
  | cons f fs ih =>
    intro vals kn name h
    cases vals with
    | nil => simp only [specKn]
    | cons v vs =>
      have hne : name ≠ f.name := by
        intro he
        exact h (by simp [he])
      have hnot : name ∉ fs.map FieldT.name := by
        intro hmem
        exact h (by simp [hmem])
      by_cases hrf : rf f = true
      · simp only [specKn, if_pos hrf]
        rw [ih vs _ name hnot]
        simp only [Option.getD_some]
        exact alookup_aset_other _ f.name name v hne
      · simp only [specKn, if_neg hrf]
        exact ih vs kn name hnot

/-- Duplicate-free field names make the name-to-field map injective. -/
theorem nodup_name_inj :
    ∀ (fields : List FieldT), (fields.map FieldT.name).Nodup →
    ∀ g ∈ fields, ∀ f ∈ fields, g.name = f.name → g = f := by
  intro fields
  induction fields with
  | nil =>
    intro hnd g hg
    simp at hg
  | cons a as ih =>
    intro hnd g hg f hf he
    have hnd' : (as.map FieldT.name).Nodup := (List.nodup_cons.mp (by simpa using hnd)).2
    have ha : a.name ∉ as.map FieldT.name := (List.nodup_cons.mp (by simpa using hnd)).1
    rcases List.mem_cons.mp hg with hg1 | hg2 <;> rcases List.mem_cons.mp hf with hf1 | hf2
    · rw [hg1, hf1]
    · subst hg1
      refine absurd ?_ ha
      rw [he]
      exact List.mem_map_of_mem FieldT.name hf2
    · subst hf1
      refine absurd ?_ ha
      rw [← he]
      exact List.mem_map_of_mem FieldT.name hg2
    · exact ih hnd' g hg2 f hf2 he

/-- A managed field's assigned value is retrievable from the spec-built state
record, assuming duplicate-free field names. -/
theorem specKn_mem (rf : FieldT → Bool) :
    ∀ (fields : List FieldT) (vals : List Val) (kn : Option StateRec)
      (f : FieldT) (v : Val),
    (fields.map FieldT.name).Nodup →
    (f, v) ∈ fields.zip vals →
    rf f = true →
    alookup ((specKn rf fields vals kn).getD { rowid := none, overrides := [] }).overrides
      f.name = some v := by
  intro fields
  induction fields with
  | nil =>
    intro vals kn f v hnd hmem hrf
    simp at hmem
  | cons g gs ih =>
    intro vals kn f v hnd hmem hrf
    cases vals with
    | nil => simp at hmem
    | cons w ws =>
      have hgnotin : g.name ∉ gs.map FieldT.name :=
        (List.nodup_cons.mp (by simpa using hnd)).1
      have hnd' : (gs.map FieldT.name).Nodup :=
        (List.nodup_cons.mp (by simpa using hnd)).2
      rcases (by simpa using hmem : f = g ∧ v = w ∨ (f, v) ∈ gs.zip ws) with ⟨hf, hv⟩ | htail
      · subst hf
        subst hv
        simp only [specKn, if_pos hrf]
        rw [specKn_preserve rf gs ws _ f.name hgnotin]
        simp only [Option.getD_some]
        exact alookup_aset_self _ f.name v
      · by_cases hrfg : rf g = true
        · simp only [specKn, if_pos hrfg]
          exact ih ws _ f v hnd' htail hrf
        · simp only [specKn, if_neg hrfg]
          exact ih ws kn f v hnd' htail hrf

/-- The spec-built dict never binds a name carried only by managed fields. -/
theorem specDict_not_bound (rf : FieldT → Bool) :
    ∀ (fields : List FieldT) (vals : List Val) (d : List (String × Val)) (name : String),
    alookup d name = none →
    (∀ g ∈ fields, g.name = name → rf g = true) →
    alookup (specDict rf fields vals d) name = none := by
  intro fields
  induction fields with
  | nil =>
    intro vals d name hd h
    simpa only [specDict] using hd
  | cons g gs ih =>
    intro vals d name hd h
    cases vals with
    | nil => simpa only [specDict] using hd
    | cons w ws =>
      by_cases hrf : rf g = true
      · simp only [specDict, if_pos hrf]
        exact ih ws d name hd (fun q hq hqn => h q (by simp [hq]) hqn)
      · simp only [specDict, if_neg hrf]
        have hgn : name ≠ g.name := fun he => hrf (h g (by simp) he.symm)
        refine ih ws _ name ?_ (fun q hq hqn => h q (by simp [hq]) hqn)
        rw [alookup_aset_other d g.name name w hgn]
        exact hd

/-- Cattrs structuring of a cell never produces a live Python object: every
decoded value is a scalar or a bare `KeyType` foreign key. -/
theorem structureN_not_vObj {s : ORMState} {cell : SQLVal} {t : NTy} {v : Val}
    (h : structureN s cell t = some v) : ∀ d, v ≠ .vObj d := by
  intro d hv
  subst hv
  cases t <;> cases cell <;>
    (simp only [structureN] at h; try split at h) <;> simp_all

/-- A cell structured at a registered-class hint decodes to a bare key. -/
theorem structureN_nCls {s : ORMState} {cell : SQLVal} {tgt : ClsName} {v : Val}
    (h : structureN s cell (.nCls tgt) = some v) : ∃ k, v = .vKey k := by
  simp only [structureN] at h
  by_cases hr : (s.registered tgt).isSome
  · rw [if_pos hr] at h
    cases cell with
    | sqlInt n =>
      injection h with h2
      exact ⟨n.toNat, h2.symm⟩
    | sqlNull => exact absurd h (by simp)
    | sqlReal x => exact absurd h (by simp)
    | sqlText s2 => exact absurd h (by simp)
    | sqlDateText d2 => exact absurd h (by simp)
    | sqlDatetimeText i => exact absurd h (by simp)
    | sqlBlob b => exact absurd h (by simp)
  · rw [if_neg hr] at h
    exact absurd h (by simp)

/-- Structuring a cell at a declared hint never yields a live object. -/
theorem structureVal_not_vObj {s : ORMState} {cell : SQLVal} {t : PyT} {v : Val}
    (h : structureVal s cell t = some v) : ∀ d, v ≠ .vObj d := by
  intro d hv
  subst hv
  simp only [structureVal] at h
  by_cases ho : t.opt = true
  · rw [if_pos ho] at h
    cases cell with
    | sqlNull => simp at h
    | sqlInt n => exact structureN_not_vObj h d rfl
    | sqlReal x => exact structureN_not_vObj h d rfl
    | sqlText s2 => exact structureN_not_vObj h d rfl
    | sqlDateText d2 => exact structureN_not_vObj h d rfl
    | sqlDatetimeText i => exact structureN_not_vObj h d rfl
    | sqlBlob b => exact structureN_not_vObj h d rfl
  · rw [if_neg ho] at h
    exact structureN_not_vObj h d rfl

/-- Structuring a cell at a registered-class hint yields a bare key, or `None`
for a NULL cell under an optional annotation. -/
theorem structureVal_nCls {s : ORMState} {cell : SQLVal} {t : PyT} {tgt : ClsName}
    {v : Val} (ht : t.nty = .nCls tgt) (h : structureVal s cell t = some v) :
    (∃ k, v = .vKey k) ∨ v = .vNone := by
  simp only [structureVal, ht] at h
  by_cases ho : t.opt = true
  · rw [if_pos ho] at h
    cases cell with
    | sqlNull =>
      right
      injection h with h2
      exact h2.symm
    | sqlInt n => exact .inl (structureN_nCls h)
    | sqlReal x => exact .inl (structureN_nCls h)
    | sqlText s2 => exact .inl (structureN_nCls h)
    | sqlDateText d2 => exact .inl (structureN_nCls h)
    | sqlDatetimeText i => exact .inl (structureN_nCls h)
    | sqlBlob b => exact .inl (structureN_nCls h)
  · rw [if_neg ho] at h
    exact .inl (structureN_nCls h)

/-- Every structured value of a row comes from structuring one of the row's
cells at the paired field's declared hint. -/
theorem structureRow_zip {s : ORMState} :
    ∀ (cells : List SQLVal) (fields : List FieldT) (vals : List Val),
    structureRow s cells fields = some vals →
    ∀ f v, (f, v) ∈ fields.zip vals → ∃ cell, structureVal s cell f.ty = some v := by
  intro cells
  induction cells with
  | nil =>
    intro fields vals h f v hmem
    cases fields with
    | nil =>
      simp only [structureRow] at h
      injection h with h2
      subst h2
      simp at hmem
    | cons g gs => exact Option.noConfusion h
  | cons cell cs ih =>
    intro fields vals h f v hmem
    cases fields with
    | nil => exact Option.noConfusion h
    | cons g gs =>
      simp only [structureRow] at h
      cases hsv : structureVal s cell g.ty with
      | none => rw [hsv] at h; exact Option.noConfusion h
      | some w =>
        rw [hsv] at h
        cases hsr : structureRow s cs gs with
        | none => rw [hsr] at h; exact Option.noConfusion h
        | some ws =>
          rw [hsr] at h
          injection h with h2
          subst h2
          rcases (by simpa using hmem : f = g ∧ v = w ∨ (f, v) ∈ gs.zip ws) with
            ⟨hf, hv⟩ | htail
          · subst hf
            subst hv
            exact ⟨cell, hsv⟩
          · exact ih gs ws hsr f v htail

/-- What one rehydrated row produces: a fresh instance whose dict holds the
unmanaged fields and whose state record holds the fetched rowid plus the
managed overrides (the spec-built forms). -/
theorem rehydrateRow_state {s : ORMState} {c : ClsName} {fields : List FieldT}
    {rid : Nat} {cells : List SQLVal} {s2 : ORMState} {o2 : ObjId}
    (hnd : (fields.map FieldT.name).Nodup)
    (hkn0 : s.known s.nextObj = none)
    (hre : rehydrateRow s c fields rid cells = some (s2, o2)) :
    o2 = s.nextObj ∧
    ∃ vals, structureRow s cells fields = some vals ∧
      s2.heap o2 = some { cls := c, dict := specDict (isManaged s c) fields vals [] } ∧
      s2.known o2 = some { rowid := some rid,
                           overrides := ((specKn (isManaged s c) fields vals none).getD
                             { rowid := none, overrides := [] }).overrides } := by
  simp only [rehydrateRow] at hre
  cases hsr : structureRow s cells fields with
  | none =>
    rw [hsr] at hre
    exact Option.noConfusion hre
  | some vals =>
    rw [hsr] at hre
    simp only [constructM] at hre
    injection hre with h2
    rw [Prod.mk.injEq] at h2
    obtain ⟨hA, hB⟩ := h2
    subst hA
    subst hB
    have hheap1 : ({ s with
                     heap := updN s.heap s.nextObj { cls := c, dict := [] },
                     nextObj := s.nextObj + 1 } : ORMState).heap s.nextObj =
        some { cls := c, dict := [] } := by
      simp [updN]
    have hsp := setFields_spec fields vals _ s.nextObj [] hnd hheap1 (fun f hf => rfl)
    refine ⟨rfl, vals, rfl, ?_, ?_⟩
    · rw [set_self_rowid_compute]
      exact hsp.1
    · rw [set_self_rowid_compute]
      simp only [updN]
      rw [if_true, hsp.2]
      rw [show ({ s with
                  heap := updN s.heap s.nextObj { cls := c, dict := [] },
                  nextObj := s.nextObj + 1 } : ORMState).known s.nextObj = none from hkn0]
      rfl

/-- Rehydrating a row allocates exactly one fresh instance: the database, the
registry and every other instance's heap and state entries are untouched. -/
theorem rehydrateRow_frame {s : ORMState} {c : ClsName} {fields : List FieldT}
    {rid : Nat} {cells : List SQLVal} {s2 : ORMState} {o2 : ObjId}
    (hre : rehydrateRow s c fields rid cells = some (s2, o2)) :
    o2 = s.nextObj ∧ s2.nextObj = s.nextObj + 1 ∧ s2.db = s.db ∧
    s2.classes = s.classes ∧ s2.registered = s.registered ∧
    s2.descriptors = s.descriptors ∧ s2.installCount = s.installCount ∧
    s2.insLog = s.insLog ∧
    (∀ i, i ≠ o2 → s2.known i = s.known i) ∧
    (∀ i, i ≠ o2 → s2.heap i = s.heap i) := by
  simp only [rehydrateRow] at hre
  cases hsr : structureRow s cells fields with
  | none =>
    rw [hsr] at hre
    exact Option.noConfusion hre
  | some vals =>
    rw [hsr] at hre
    simp only [constructM] at hre
    injection hre with h2
    rw [Prod.mk.injEq] at h2
    obtain ⟨hA, hB⟩ := h2
    subst hA
    subst hB
    have t1 := setFields_touch
      ({ s with
         heap := updN s.heap s.nextObj { cls := c, dict := [] },
         nextObj := s.nextObj + 1 } : ORMState) s.nextObj fields vals
    have t2 := set_self_rowid_touch
      (setFields
        ({ s with
           heap := updN s.heap s.nextObj { cls := c, dict := [] },
           nextObj := s.nextObj + 1 } : ORMState) s.nextObj fields vals) s.nextObj rid
    have t := t1.trans t2
    refine ⟨rfl, ?_, ?_, ?_, ?_, ?_, ?_, ?_, ?_, ?_⟩
    · exact t.nextObj_eq.trans rfl
    · exact t.db_eq.trans rfl
    · exact t.classes_eq.trans rfl
    · exact t.registered_eq.trans rfl
    · exact t.descriptors_eq.trans rfl
    · exact t.installCount_eq.trans rfl
    · exact t.insLog_eq.trans rfl
    · exact fun i hi => (t.known_frame i hi).trans rfl
    · intro i hi
      refine (t.heap_frame i hi).trans ?_
      simp [updN, hi]

/-- A successful `get_by_id` materializes exactly one fresh instance: the
database and the insert log are untouched and every other instance's heap and
state entries are unchanged. -/
theorem get_by_idM_frame {s : ORMState} {c : ClsName} {k : Nat}
    {s2 : ORMState} {d : ObjId}
    (h : get_by_idM s c k = .ok (s2, d)) :
    d = s.nextObj ∧ s2.nextObj = s.nextObj + 1 ∧ s2.db = s.db ∧
    s2.insLog = s.insLog ∧
    (∀ i, i ≠ d → s2.known i = s.known i) ∧
    (∀ i, i ≠ d → s2.heap i = s.heap i) := by
  simp only [get_by_idM] at h
  cases hcf : get_class_fieldsC s c with
  | error e =>
    rw [hcf] at h
    exact Except.noConfusion h
  | ok tpl =>
    obtain ⟨s1, table, fields⟩ := tpl
    simp only [hcf] at h
    obtain ⟨htbl, hclsS, hcls, hheap, hnext, hknown, hdbq, hlog, hregq⟩ :=
      get_class_fieldsC_spec hcf
    cases hdb : s1.db table with
    | none =>
      simp only [hdb] at h
      exact Except.noConfusion h
    | some tbl =>
      simp only [hdb] at h
      cases hhd : (tbl.rows.filter fun r => r.1 = k).head? with
      | none =>
        simp only [hhd] at h
        exact Except.noConfusion h
      | some pr =>
        obtain ⟨rid, cells⟩ := pr
        simp only [hhd] at h
        cases hre : rehydrateRow s1 c fields rid cells with
        | none =>
          simp only [hre] at h
          exact Except.noConfusion h
        | some pr2 =>
          obtain ⟨s2', o⟩ := pr2
          simp only [hre] at h
          injection h with h2
          rw [Prod.mk.injEq] at h2
          obtain ⟨hA, hB⟩ := h2
          subst hA
          subst hB
          obtain ⟨ho, hnx, hdb2, _, _, _, _, hlog2, hknf, hhpf⟩ := rehydrateRow_frame hre
          refine ⟨?_, ?_, ?_, ?_, ?_, ?_⟩
          · rw [ho, hnext]
          · rw [hnx, hnext]
          · rw [hdb2, hdbq]
          · rw [hlog2, hlog]
          · intro i hi
            rw [hknf i hi, congrFun hknown i]
          · intro i hi
            rw [hhpf i hi, congrFun hheap i]

/-- Reading a `Reference` whose stored override is a bare key dereferences it
through a synchronous `get_by_id`, passing that call's outcome through
unmodified and writing nothing back. -/
theorem ref_get_key {s : ORMState} {o : ObjId} {c : ClsName}
    {dict : List (String × Val)} {f : FieldT} {target : ClsName}
    {r : StateRec} {k : Nat}
    (hh : s.heap o = some { cls := c, dict := dict })
    (hd : alookup dict f.name = none)
    (hkn : s.known o = some r)
    (hov : alookup r.overrides f.name = some (.vKey k)) :
    ref_get s o f target =
      (match get_by_idM s target k with
       | .error e => .error e
       | .ok p => .ok (p.1, Val.vObj p.2)) := by
  have h1 := get_dcorm_state_some hkn
  have h2 := fix_preexisting_noop hh hd
  cases hdef : f.pyDefault with
  | some dflt =>
    simp only [ref_get, h1, h2, hov, hdef, Option.getD_some]
    cases hq : get_by_idM s target k with
    | error e => rfl
    | ok p =>
      obtain ⟨s3, d⟩ := p
      rfl
  | none =>
    simp only [ref_get, h1, h2, hov, hdef]
    cases hq : get_by_idM s target k with
    | error e => rfl
    | ok p =>
      obtain ⟨s3, d⟩ := p
      rfl

/-- Python attribute read of a managed reference field holding a bare key:
the descriptor's synchronous fetch-by-id result is returned unmodified. -/
theorem getattrM_key {s : ORMState} {o : ObjId} {c : ClsName}
    {dict : List (String × Val)} {f : FieldT} {target : ClsName}
    {r : StateRec} {k : Nat}
    (hh : s.heap o = some { cls := c, dict := dict })
    (hd : alookup dict f.name = none)
    (hdesc : s.descriptors c = true)
    (href : is_ref_field s f = true)
    (htar : f.ty.nty = .nCls target)
    (hkn : s.known o = some r)
    (hov : alookup r.overrides f.name = some (.vKey k)) :
    getattrM s o f =
      (match get_by_idM s target k with
       | .error e => .error e
       | .ok p => .ok (p.1, Val.vObj p.2)) := by
  simp only [getattrM, hh, hdesc, href, Bool.and_self, if_true]
  simp only [FieldT.nonNull, htar]
  exact ref_get_key hh hd hkn hov

/--
C5: after a row is rehydrated (the shared body of `get_by_id` and `get_all`),
a managed reference field's per-instance state holds the bare row identifier
decoded from the cell — and no structured value is ever a materialized
record — until the field is read; reading it performs a synchronous
fetch-by-id against the referenced type, returning that call's outcome
unmodified, and the result is not cached: the state record still holds the
bare key (and the fetched rowid) afterwards.
-/
theorem C5_lazy_reference_resolution
    (s0 s : ORMState) (c : ClsName) (fields : List FieldT) (f : FieldT)
    (target : ClsName) (rid k : Nat) (cells : List SQLVal) (vals : List Val)
    (o : ObjId)
    (hnd : (fields.map FieldT.name).Nodup)
    (hkn0 : s0.known s0.nextObj = none)
    (hre : rehydrateRow s0 c fields rid cells = some (s, o))
    (hsr : structureRow s0 cells fields = some vals)
    (hmem : (f, Val.vKey k) ∈ fields.zip vals)
    (hman : isManaged s0 c f = true)
    (htar : f.ty.nty = .nCls target) :
    (∃ r2, s.known o = some r2 ∧ r2.rowid = some rid ∧
      alookup r2.overrides f.name = some (Val.vKey k)) ∧
    (∀ g w, (g, w) ∈ fields.zip vals → ∀ d, w ≠ Val.vObj d) ∧
    (∀ e, get_by_idM s target k = .error e → getattrM s o f = .error e) ∧
    (∀ s3 d, get_by_idM s target k = .ok (s3, d) →
      getattrM s o f = .ok (s3, Val.vObj d) ∧
      ∃ r3, s3.known o = some r3 ∧ r3.rowid = some rid ∧
        alookup r3.overrides f.name = some (Val.vKey k)) := by
  obtain ⟨ho, vals', hsr', hheapO, hknO⟩ := rehydrateRow_state hnd hkn0 hre
  rw [hsr] at hsr'
  injection hsr' with hveq
  subst hveq
  obtain ⟨ho2f, hnx, hdb2, hclse, hrege, hdesce, hinste, hloge, hknf, hhpf⟩ :=
    rehydrateRow_frame hre
  have hmandup : s0.descriptors c = true ∧ is_ref_field s0 f = true := by
    simpa [isManaged, Bool.and_eq_true] using hman
  obtain ⟨hdesc0, href0⟩ := hmandup
  have hdescS : s.descriptors c = true := by
    rw [hdesce]
    exact hdesc0
  have href0' : (s0.registered target).isSome = true := by
    simpa [is_ref_field, FieldT.nonNull, htar, hasOrmN] using href0
  have hrefS : is_ref_field s f = true := by
    simp [is_ref_field, FieldT.nonNull, htar, hasOrmN, hrege, href0']
  have hfmem : f ∈ fields := (List.of_mem_zip hmem).1
  have hforall : ∀ g ∈ fields, g.name = f.name → isManaged s0 c g = true := by
    intro g hg he
    rw [nodup_name_inj fields hnd g hg f hfmem he]
    exact hman
  have hdictO : alookup (specDict (isManaged s0 c) fields vals []) f.name = none :=
    specDict_not_bound (isManaged s0 c) fields vals [] f.name rfl hforall
  have hovO : alookup ((specKn (isManaged s0 c) fields vals none).getD
      { rowid := none, overrides := [] }).overrides f.name = some (Val.vKey k) :=
    specKn_mem (isManaged s0 c) fields vals none f (Val.vKey k) hnd hmem hman
  have hread := getattrM_key hheapO hdictO hdescS hrefS htar hknO hovO
  refine ⟨⟨_, hknO, rfl, hovO⟩, ?_, ?_, ?_⟩
  · intro g w hmw d
    obtain ⟨cell, hcell⟩ := structureRow_zip cells fields vals hsr g w hmw
    exact structureVal_not_vObj hcell d
  · intro e he
    rw [hread, he]
  · intro s3 d hq
    obtain ⟨hd', hnx', hdbq', hlogq', hknf', hhpf'⟩ := get_by_idM_frame hq
    have hone : o ≠ d := by
      rw [ho, hd', hnx]
      exact fun hcontra => Nat.succ_ne_self s0.nextObj hcontra.symm
    have hs3k : s3.known o = some { rowid := some rid,
                                    overrides :=
                                      ((specKn (isManaged s0 c) fields vals none).getD
                                        { rowid := none, overrides := [] }).overrides } := by
      rw [hknf' o hone]
      exact hknO
    refine ⟨?_, _, hs3k, rfl, hovO⟩
    rw [hread, hq]

/-- Example database contents: one `Foo` row (rowid 1, a = 7) and one `Bar`
row (rowid 1, b = 5, some_foo = foreign key 1). -/
def exDbTables : String → Option Table := fun t =>
  if t = "Foo" then some { nextRow := 2, rows := [(1, [SQLVal.sqlInt 7])] }
  else if t = "Bar" then
    some { nextRow := 2, rows := [(1, [SQLVal.sqlInt 5, SQLVal.sqlInt 1])] }
  else none

/-- The resolved example state sitting over the stored rows. -/
def exDbC5 : ORMState := { exResolvedBar with db := exDbTables }

/-- The declared `some_foo : Foo` field of the example `Bar` class. -/
def exFieldSomeFoo : FieldT :=
  { name := "some_foo", ty := { nty := .nCls "Foo", opt := false }, pyDefault := none }

/-- Rehydration of the stored `Bar` row. -/
def rehydC5 : Option (ORMState × ObjId) :=
  rehydrateRow exDbC5 "Bar" exBarFields 1 [SQLVal.sqlInt 5, SQLVal.sqlInt 1]

/-- The state after rehydrating the `Bar` row. -/
def sC5 : ORMState := match rehydC5 with | some p => p.1 | none => exDbC5

/-- The rehydrated `Bar` instance. -/
def oC5 : ObjId := match rehydC5 with | some p => p.2 | none => 0

/-- The synchronous fetch the first read of `some_foo` performs. -/
def fetchC5 : Except DErr (ORMState × ObjId) := get_by_idM sC5 "Foo" 1

/-- The state after the fetch. -/
def s3C5 : ORMState := match fetchC5 with | .ok p => p.1 | .error _ => sC5

/-- The materialized `Foo` instance the read returns. -/
def dC5 : ObjId := match fetchC5 with | .ok p => p.2 | .error _ => 0

/-- Witness for C5 at the example schema: after rehydrating the stored `Bar`
row the state holds `some_foo` as the bare key 1; reading the field returns
the materialized `Foo` instance, and afterwards the state still holds the
bare key. -/
theorem C5_lazy_reference_resolution_witness :
    (∃ r2, sC5.known oC5 = some r2 ∧ r2.rowid = some 1 ∧
      alookup r2.overrides "some_foo" = some (Val.vKey 1)) ∧
    getattrM sC5 oC5 exFieldSomeFoo = .ok (s3C5, Val.vObj dC5) ∧
    (∃ r3, s3C5.known oC5 = some r3 ∧ r3.rowid = some 1 ∧
      alookup r3.overrides "some_foo" = some (Val.vKey 1)) := by
  have h := C5_lazy_reference_resolution exDbC5 sC5 "Bar" exBarFields exFieldSomeFoo
    "Foo" 1 1 [SQLVal.sqlInt 5, SQLVal.sqlInt 1] [Val.vInt 5, Val.vKey 1] oC5
    (by decide) rfl rfl rfl (by decide) rfl rfl
  refine ⟨h.1, ?_, ?_⟩
  · exact (h.2.2.2 s3C5 dC5 rfl).1
  · exact (h.2.2.2 s3C5 dC5 rfl).2

/-- The table as `execute_insert` leaves it: one appended row under the
engine-assigned next rowid. -/
def inserted_table (tbl : Table) (cells : List SQLVal) : Table :=
  { nextRow := tbl.nextRow + 1, rows := tbl.rows ++ [(tbl.nextRow, cells)] }

/--
C10: insert on an instance that already carries a row id still executes a new
INSERT — the table gains a second row under a fresh engine-assigned rowid, the
insert log grows by one event, and the instance's recorded row id is
overwritten with the new one; the existing-row-id short-circuit exists only in
the cascade step of `_astuple`, where a dependent with a row id contributes
that id with no insert at all.
-/
theorem C10_reinsert_always_inserts
    (fuel : Nat) (s : ORMState) (o : ObjId) (obj : Obj) (r : StateRec) (k0 : Nat)
    (table : String) (fields : List FieldT) (s1 : ORMState) (vals : List Val)
    (cells : List SQLVal) (tbl : Table)
    (hh : s.heap o = some obj)
    (hkn : s.known o = some r)
    (hk0 : r.rowid = some k0)
    (hcf : get_instance_fieldsC s obj.cls = .ok (table, fields))
    (hast : astupleM fuel s o fields = some (.ok (s1, vals)))
    (henc : encodeRow vals = some cells)
    (hdb : s1.db table = some tbl) :
    insertM (fuel + 1) s o =
      some (.ok (set_self_rowid
        { s1 with db := upd s1.db table (inserted_table tbl cells),
                  insLog := s1.insLog ++ [(table, tbl.nextRow, o)] } o tbl.nextRow,
        tbl.nextRow)) ∧
    (∀ s2 rid, insertM (fuel + 1) s o = some (.ok (s2, rid)) →
      rid = tbl.nextRow ∧
      s2.db table = some (inserted_table tbl cells) ∧
      s2.insLog = s1.insLog ++ [(table, tbl.nextRow, o)] ∧
      s2.known o = some { rowid := some tbl.nextRow,
                          overrides := ((s1.known o).getD
                            { rowid := none, overrides := [] }).overrides }) ∧
    (∀ (sa : ORMState) (oa d : ObjId) (f : FieldT) (fs : List FieldT)
       (sb : ORMState) (dobj : Obj) (kdep : Nat) (fuelA : Nat),
      getattrM sa oa f = .ok (sb, .vObj d) →
      hasOrmN sb f.nonNull = true →
      sb.heap d = some dobj →
      f.nonNull = .nCls dobj.cls →
      (get_dcorm_state sb d).2.rowid = some kdep →
      astupleM fuelA sa oa (f :: fs) =
        (match astupleM fuelA (get_dcorm_state sb d).1 oa fs with
         | none => none
         | some (.error e) => some (.error e)
         | some (.ok (s2, vs)) => some (.ok (s2, Val.vKey kdep :: vs)))) := by
  have hmain : insertM (fuel + 1) s o =
      some (.ok (set_self_rowid
        { s1 with db := upd s1.db table (inserted_table tbl cells),
                  insLog := s1.insLog ++ [(table, tbl.nextRow, o)] } o tbl.nextRow,
        tbl.nextRow)) := by
    have hast2 : astupleGo (insertM fuel) s o fields = some (.ok (s1, vals)) := hast
    simp only [insertM, hh, hcf, hast2, henc, execute_insert, hdb, inserted_table]
  refine ⟨hmain, ?_, ?_⟩
  · intro s2 rid heq
    rw [hmain] at heq
    injection heq with h1
    injection h1 with h2
    rw [Prod.mk.injEq] at h2
    obtain ⟨hA, hB⟩ := h2
    rw [← hA, ← hB]
    refine ⟨rfl, ?_, ?_, ?_⟩
    · rw [set_self_rowid_compute]
      simp [upd, inserted_table]
    · rw [set_self_rowid_compute]
    · rw [set_self_rowid_compute]
      simp [updN]
  · intro sa oa d f fs sb dobj kdep fuelA hga hreg hhd hclsd hrow
    simp only [astupleM, astupleGo, hga]
    rw [if_pos (⟨by simp, hreg⟩ :
      Val.vObj d ≠ Val.vNone ∧ hasOrmN sb f.nonNull = true)]
    simp only [hhd]
    rw [if_pos hclsd]
    simp only [hrow]

/-- The tuple-building pass of the re-insert example (the cascade dereferences
`some_foo`, finds its existing row id and inserts nothing). -/
def astC10 : Option (Except DErr (ORMState × List Val)) :=
  astupleM 5 sC5 oC5 exBarFields

/-- The state after the tuple-building pass. -/
def s1C10 : ORMState := match astC10 with | some (.ok p) => p.1 | _ => sC5

/-- Re-inserting the already-persisted rehydrated `Bar` instance. -/
def insC10 : Option (Except DErr (ORMState × Nat)) := insertM 6 sC5 oC5

/-- The state after the re-insert. -/
def s2C10 : ORMState := match insC10 with | some (.ok p) => p.1 | _ => sC5

/-- Witness for C10 at the example schema: the rehydrated `Bar` instance
carries row id 1, yet insert executes a new INSERT — the `Bar` table gains a
second identical row under the fresh rowid 2 and the recorded row id becomes
2 — while the persisted `Foo` dependent is not re-inserted (the insert log
gains only the one `Bar` event). -/
theorem C10_reinsert_always_inserts_witness :
    sC5.known oC5 = some { rowid := some 1, overrides := [("some_foo", Val.vKey 1)] } ∧
    insertM 6 sC5 oC5 = some (.ok (s2C10, 2)) ∧
    s2C10.db "Bar" = some { nextRow := 3,
                            rows := [(1, [SQLVal.sqlInt 5, SQLVal.sqlInt 1]),
                                     (2, [SQLVal.sqlInt 5, SQLVal.sqlInt 1])] } ∧
    s2C10.insLog = s1C10.insLog ++ [("Bar", 2, oC5)] ∧
    s1C10.insLog = [] ∧
    s2C10.known oC5 = some { rowid := some 2, overrides := [("some_foo", Val.vKey 1)] } := by
  have h := C10_reinsert_always_inserts 5 sC5 oC5
    { cls := "Bar", dict := [("b", Val.vInt 5)] }
    { rowid := some 1, overrides := [("some_foo", Val.vKey 1)] } 1
    "Bar" exBarFields s1C10 [Val.vInt 5, Val.vKey 1]
    [SQLVal.sqlInt 5, SQLVal.sqlInt 1]
    { nextRow := 2, rows := [(1, [SQLVal.sqlInt 5, SQLVal.sqlInt 1])] }
    rfl rfl rfl rfl rfl rfl rfl
  have hspec := h.2.1 s2C10 2 rfl
  exact ⟨rfl, rfl, hspec.2.1, hspec.2.2.1, rfl, hspec.2.2.2⟩

/--
C2: in the tuple-building pass of insert, a field holding a record of its
registered non-null type contributes that record's row id: when the dependent
has no row id yet it is cascade-inserted exactly once — the single insert call
of the step — and the freshly assigned id is what the container's column
receives, the insert itself appending exactly one row and one log event for
the dependent; when the dependent already has a row id, its existing id is
stored and nothing is inserted for it — the state threaded onward carries the
same database and insert log.
-/
theorem C2_cascade_insert_once :
    (∀ (ins : ORMState → ObjId → Option (Except DErr (ORMState × Nat)))
       (s : ORMState) (o d : ObjId) (f : FieldT) (fs : List FieldT)
       (s1 s2 : ORMState) (dobj : Obj) (k : Nat),
      getattrM s o f = .ok (s1, .vObj d) →
      hasOrmN s1 f.nonNull = true →
      s1.heap d = some dobj →
      f.nonNull = .nCls dobj.cls →
      (get_dcorm_state s1 d).2.rowid = none →
      ins (get_dcorm_state s1 d).1 d = some (.ok (s2, k)) →
      astupleGo ins s o (f :: fs) =
        (match astupleGo ins s2 o fs with
         | none => none
         | some (.error e) => some (.error e)
         | some (.ok (s3, vs)) => some (.ok (s3, Val.vKey k :: vs)))) ∧
    (∀ (ins : ORMState → ObjId → Option (Except DErr (ORMState × Nat)))
       (s : ORMState) (o d : ObjId) (f : FieldT) (fs : List FieldT)
       (s1 : ORMState) (dobj : Obj) (kdep : Nat),
      getattrM s o f = .ok (s1, .vObj d) →
      hasOrmN s1 f.nonNull = true →
      s1.heap d = some dobj →
      f.nonNull = .nCls dobj.cls →
      (get_dcorm_state s1 d).2.rowid = some kdep →
      (get_dcorm_state s1 d).1.db = s1.db ∧
      (get_dcorm_state s1 d).1.insLog = s1.insLog ∧
      astupleGo ins s o (f :: fs) =
        (match astupleGo ins (get_dcorm_state s1 d).1 o fs with
         | none => none
         | some (.error e) => some (.error e)
         | some (.ok (s3, vs)) => some (.ok (s3, Val.vKey kdep :: vs)))) ∧
    (∀ (fuel : Nat) (sd : ORMState) (d : ObjId) (obj : Obj) (table : String)
       (fields : List FieldT) (s1 : ORMState) (vals : List Val)
       (cells : List SQLVal) (tbl : Table),
      sd.heap d = some obj →
      get_instance_fieldsC sd obj.cls = .ok (table, fields) →
      astupleM fuel sd d fields = some (.ok (s1, vals)) →
      encodeRow vals = some cells →
      s1.db table = some tbl →
      insertM (fuel + 1) sd d =
        some (.ok (set_self_rowid
          { s1 with db := upd s1.db table (inserted_table tbl cells),
                    insLog := s1.insLog ++ [(table, tbl.nextRow, d)] } d tbl.nextRow,
          tbl.nextRow))) := by
  refine ⟨?_, ?_, ?_⟩
  · intro ins s o d f fs s1 s2 dobj k hga hreg hhd hclsd hrow hins
    simp only [astupleGo, hga]
    rw [if_pos (⟨by simp, hreg⟩ :
      Val.vObj d ≠ Val.vNone ∧ hasOrmN s1 f.nonNull = true)]
    simp only [hhd]
    rw [if_pos hclsd]
    simp only [hrow, hins]
  · intro ins s o d f fs s1 dobj kdep hga hreg hhd hclsd hrow
    refine ⟨?_, ?_, ?_⟩
    · exact (get_dcorm_state_touch s1 d).db_eq
    · exact (get_dcorm_state_touch s1 d).insLog_eq
    · simp only [astupleGo, hga]
      rw [if_pos (⟨by simp, hreg⟩ :
        Val.vObj d ≠ Val.vNone ∧ hasOrmN s1 f.nonNull = true)]
      simp only [hhd]
      rw [if_pos hclsd]
      simp only [hrow]
  · intro fuel sd d obj table fields s1 vals cells tbl hh hcf hast henc hdb
    have hast2 : astupleGo (insertM fuel) sd d fields = some (.ok (s1, vals)) := hast
    simp only [insertM, hh, hcf, hast2, henc, execute_insert, hdb, inserted_table]

/-- Two `Bar` containers (ids 301, 302) both referencing the same in-memory
`Foo` instance (id 300, unpersisted), over empty tables. -/
def exC2base : ORMState :=
  { exResolvedBar with
    db := fun t => if t = "Foo" then some { nextRow := 1, rows := [] }
                   else if t = "Bar" then some { nextRow := 1, rows := [] }
                   else none,
    heap := fun i => if i = 300 then some { cls := "Foo", dict := [("a", Val.vInt 7)] }
                     else if i = 301 then some { cls := "Bar", dict := [("b", Val.vInt 5)] }
                     else if i = 302 then some { cls := "Bar", dict := [("b", Val.vInt 6)] }
                     else none,
    nextObj := 400,
    known := fun i =>
      if i = 301 then some { rowid := none, overrides := [("some_foo", Val.vObj 300)] }
      else if i = 302 then some { rowid := none, overrides := [("some_foo", Val.vObj 300)] }
      else none }

/-- Tuple building for the first container (cascades the `Foo` insert). -/
def astAC2 : Option (Except DErr (ORMState × List Val)) :=
  astupleM 2 exC2base 301 exBarFields

/-- The state after the first container's tuple building. -/
def s1AC2 : ORMState := match astAC2 with | some (.ok p) => p.1 | _ => exC2base

/-- Insert of the first container. -/
def insAC2 : Option (Except DErr (ORMState × Nat)) := insertM 3 exC2base 301

/-- The state after inserting the first container. -/
def sAC2 : ORMState := match insAC2 with | some (.ok p) => p.1 | _ => exC2base

/-- Insert of the second container (its dependent is now persisted). -/
def insBC2 : Option (Except DErr (ORMState × Nat)) := insertM 3 sAC2 302

/-- The state after inserting the second container. -/
def sBC2 : ORMState := match insBC2 with | some (.ok p) => p.1 | _ => sAC2

/-- The state after the dependent's state record is auto-created. -/
def gdsC2 : ORMState := (get_dcorm_state exC2base 300).1

/-- The cascaded insert of the dependent `Foo`. -/
def insDepC2 : Option (Except DErr (ORMState × Nat)) := insertM 2 gdsC2 300

/-- The state after the cascaded dependent insert. -/
def sDepC2 : ORMState := match insDepC2 with | some (.ok p) => p.1 | _ => gdsC2

/-- Witness for C2 at the example schema: inserting the first container
cascade-inserts the unpersisted `Foo` exactly once (one `Foo` row, one `Foo`
log event) and stores its new row id 1 in the column; inserting the second
container re-uses the existing row id — the `Foo` table and its single row are
unchanged and the log gains only the one `Bar` event. -/
theorem C2_cascade_insert_once_witness :
    insertM 3 exC2base 301 = some (.ok (sAC2, 1)) ∧
    sAC2.db "Foo" = some { nextRow := 2, rows := [(1, [SQLVal.sqlInt 7])] } ∧
    sAC2.db "Bar" = some { nextRow := 2, rows := [(1, [SQLVal.sqlInt 5, SQLVal.sqlInt 1])] } ∧
    sAC2.insLog = [("Foo", 1, 300), ("Bar", 1, 301)] ∧
    astupleGo (insertM 2) exC2base 301 [exFieldSomeFoo] =
      some (.ok (sDepC2, [Val.vKey 1])) ∧
    (get_dcorm_state sAC2 300).1.db = sAC2.db ∧
    astupleGo (insertM 2) sAC2 302 [exFieldSomeFoo] =
      some (.ok ((get_dcorm_state sAC2 300).1, [Val.vKey 1])) ∧
    insertM 3 sAC2 302 = some (.ok (sBC2, 2)) ∧
    sBC2.db "Foo" = some { nextRow := 2, rows := [(1, [SQLVal.sqlInt 7])] } ∧
    sBC2.db "Bar" = some { nextRow := 3,
                           rows := [(1, [SQLVal.sqlInt 5, SQLVal.sqlInt 1]),
                                    (2, [SQLVal.sqlInt 6, SQLVal.sqlInt 1])] } ∧
    sBC2.insLog = [("Foo", 1, 300), ("Bar", 1, 301), ("Bar", 2, 302)] := by
  obtain ⟨hA, hB, hC⟩ := C2_cascade_insert_once
  have hAeq := hA (insertM 2) exC2base 301 300 exFieldSomeFoo [] exC2base sDepC2
    { cls := "Foo", dict := [("a", Val.vInt 7)] } 1 rfl rfl rfl rfl rfl rfl
  have hBall := hB (insertM 2) sAC2 302 300 exFieldSomeFoo [] sAC2
    { cls := "Foo", dict := [("a", Val.vInt 7)] } 1 rfl rfl rfl rfl rfl
  have hCeq := hC 2 exC2base 301 { cls := "Bar", dict := [("b", Val.vInt 5)] }
    "Bar" exBarFields s1AC2 [Val.vInt 5, Val.vKey 1] [SQLVal.sqlInt 5, SQLVal.sqlInt 1]
    { nextRow := 1, rows := [] } rfl rfl rfl rfl rfl
  exact ⟨hCeq.trans rfl, rfl, rfl, rfl, hAeq.trans rfl, hBall.1,
    hBall.2.2.trans rfl, rfl, rfl, rfl, rfl⟩

/-- Values supported for a declared field hint: the builtin scalars at their
own annotations, `None` under an optional annotation, and a bare `KeyType`
foreign key at a registered-class annotation (the forms the insert pipeline
binds and the structure hooks decode). -/
def vfits (s : ORMState) (v : Val) (t : PyT) : Bool :=
  match v, t.nty with
  | .vNone, _ => t.opt
  | .vInt _, .nInt => true
  | .vFloat _, .nFloat => true
  | .vStr _, .nStr => true
  | .vDate _, .nDate => true
  | .vDatetime _, .nDatetime => true
  | .vKey _, .nCls c => (s.registered c).isSome
  | _, _ => false

/-- The field-type discipline only consults the registry. -/
theorem vfits_registered_eq {s1 s2 : ORMState} {v : Val} {t : PyT}
    (h : s1.registered = s2.registered) : vfits s1 v t = vfits s2 v t := by
  cases hv : v <;> cases hn : t.nty <;> simp [vfits, hv, hn, h]

/-- Reference-field detection only consults the registry. -/
theorem is_ref_field_registered_eq {s1 s2 : ORMState} {f : FieldT}
    (h : s1.registered = s2.registered) : is_ref_field s1 f = is_ref_field s2 f := by
  cases hn : f.nonNull <;> simp [is_ref_field, hasOrmN, hn, h]

/-- Resolving an already-resolved class returns the state unchanged. -/
theorem get_class_fieldsC_resolved {s : ORMState} {c : ClsName} {fields : List FieldT}
    (hreg : s.registered c = some true)
    (hcls : s.classes c = some fields)
    (hne : fields.isEmpty = false) :
    get_class_fieldsC s c = .ok (s, c, fields) := by
  simp only [get_class_fieldsC, hreg, get_instance_fieldsC, hcls, hne,
    add_descriptors_if_missing, Bool.false_eq_true, if_false]

/-- An unmanaged field's assigned value is retrievable from the spec-built
dict, assuming duplicate-free field names. -/
theorem specDict_mem (rf : FieldT → Bool) :
    ∀ (fields : List FieldT) (vals : List Val) (d : List (String × Val))
      (f : FieldT) (v : Val),
    (fields.map FieldT.name).Nodup →
    (f, v) ∈ fields.zip vals →
    rf f = false →
    alookup (specDict rf fields vals d) f.name = some v := by
  intro fields
  induction fields with
  | nil =>
    intro vals d f v hnd hmem hrf
    simp at hmem
  | cons g gs ih =>
    intro vals d f v hnd hmem hrf
    cases vals with
    | nil => simp at hmem
    | cons w ws =>
      have hgnotin : g.name ∉ gs.map FieldT.name :=
        (List.nodup_cons.mp (by simpa using hnd)).1
      have hnd' : (gs.map FieldT.name).Nodup :=
        (List.nodup_cons.mp (by simpa using hnd)).2
      rcases (by simpa using hmem : f = g ∧ v = w ∨ (f, v) ∈ gs.zip ws) with ⟨hf, hv⟩ | htail
      · subst hf
        subst hv
        simp only [specDict, hrf, Bool.false_eq_true, if_false]
        have hpres : ∀ (vs2 : List Val) (d2 : List (String × Val)),
            f.name ∉ gs.map FieldT.name →
            alookup (specDict rf gs vs2 d2) f.name = alookup d2 f.name := by
          clear hmem hnd hnd' hgnotin ih
          intro vs2
          induction gs generalizing vs2 with
          | nil =>
            intro d2 hni
            simp only [specDict]
          | cons q qs ihq =>
            intro d2 hni
            cases vs2 with
            | nil => simp only [specDict]
            | cons u us =>
              have hqn : f.name ≠ q.name := by
                intro he
                exact hni (by simp [he])
              have hni' : f.name ∉ qs.map FieldT.name := by
                intro hm2
                exact hni (by simp [hm2])
              by_cases hq : rf q = true
              · simp only [specDict, if_pos hq]
                exact ihq us d2 hni'
              · simp only [specDict, if_neg hq]
                rw [ihq us _ hni']
                exact alookup_aset_other d2 q.name f.name u hqn
        rw [hpres ws _ hgnotin]
        exact alookup_aset_self d f.name v
      · by_cases hq : rf g = true
        · simp only [specDict, if_pos hq]
          exact ih ws d f v hnd' htail hrf
        · simp only [specDict, if_neg hq]
          exact ih ws _ f v hnd' htail hrf

/-- Reading an unmanaged attribute bound in the instance dict is a pure
lookup. -/
theorem getattrM_flat {s : ORMState} {o : ObjId} {c : ClsName}
    {dict : List (String × Val)} {f : FieldT} {v : Val}
    (hh : s.heap o = some { cls := c, dict := dict })
    (hflat : is_ref_field s f = false)
    (hv : alookup dict f.name = some v) :
    getattrM s o f = .ok (s, v) := by
  simp only [getattrM, hh, hflat, Bool.and_false, Bool.false_eq_true, if_false, hv]

/-- The tuple-building pass over fields that are all unmanaged scalars reads
the dict values in order and leaves the state untouched. -/
theorem astupleGo_flat
    (ins : ORMState → ObjId → Option (Except DErr (ORMState × Nat)))
    {s : ORMState} {o : ObjId} {c : ClsName} {dict : List (String × Val)}
    (hh : s.heap o = some { cls := c, dict := dict }) :
    ∀ (fields : List FieldT) (vals : List Val),
    fields.length = vals.length →
    (∀ f ∈ fields, is_ref_field s f = false) →
    (∀ p ∈ fields.zip vals, alookup dict p.1.name = some p.2) →
    astupleGo ins s o fields = some (.ok (s, vals)) := by
  intro fields
  induction fields with
  | nil =>
    intro vals hlen hflat hvals
    cases vals with
    | nil => rfl
    | cons w ws => simp at hlen
  | cons f fs ih =>
    intro vals hlen hflat hvals
    cases vals with
    | nil => simp at hlen
    | cons w ws =>
      have hf : is_ref_field s f = false := hflat f (by simp)
      have hvf : alookup dict f.name = some w := hvals (f, w) (by simp)
      have hga := getattrM_flat hh hf hvf
      simp only [astupleGo, hga]
      have hcond : ¬(w ≠ Val.vNone ∧ hasOrmN s f.nonNull = true) := by
        intro hcontra
        rw [show hasOrmN s f.nonNull = is_ref_field s f from rfl, hf] at hcontra
        exact absurd hcontra.2 (by simp)
      rw [if_neg hcond]
      rw [ih ws (by simpa using hlen) (fun g hg => hflat g (by simp [hg]))
        (fun p hp => hvals p (by simp [hp]))]

/-- Fetching a stored row of a resolved flat record type rehydrates an
instance whose fields read back exactly the structured values. -/
theorem get_by_id_rehydrates {S : ORMState} {c : ClsName} {fields : List FieldT}
    {vals : List Val} {cells : List SQLVal} {rid : Nat} {tbl2 : Table}
    (hcls : S.classes c = some fields)
    (hne : fields.isEmpty = false)
    (hreg : S.registered c = some true)
    (hdb : S.db c = some tbl2)
    (hfilter : (tbl2.rows.filter fun r => r.1 = rid).head? = some (rid, cells))
    (hstr : structureRow S cells fields = some vals)
    (hnd : (fields.map FieldT.name).Nodup)
    (hkn0 : S.known S.nextObj = none)
    (hflat : ∀ f ∈ fields, is_ref_field S f = false) :
    ∃ s3 oNew, get_by_idM S c rid = .ok (s3, oNew) ∧
      ∀ p ∈ fields.zip vals, getattrM s3 oNew p.1 = .ok (s3, p.2) := by
  have hcf := get_class_fieldsC_resolved hreg hcls hne
  cases hre : rehydrateRow S c fields rid cells with
  | none =>
    exfalso
    simp only [rehydrateRow, hstr] at hre
    exact Option.noConfusion hre
  | some pr =>
    obtain ⟨s3, oNew⟩ := pr
    have hgb : get_by_idM S c rid = .ok (s3, oNew) := by
      simp only [get_by_idM, hcf, hdb, hfilter, hre]
    obtain ⟨hoNew, vals', hstr', hheap3, hkn3⟩ := rehydrateRow_state hnd hkn0 hre
    rw [hstr] at hstr'
    injection hstr' with hveq
    subst hveq
    obtain ⟨_, _, _, _, hrege3, _, _, _, _, _⟩ := rehydrateRow_frame hre
    refine ⟨s3, oNew, hgb, ?_⟩
    intro p hp
    have hfmem := (List.of_mem_zip hp).1
    have hflat3 : is_ref_field s3 p.1 = false :=
      (is_ref_field_registered_eq hrege3).trans (hflat p.1 hfmem)
    have hrfS : isManaged S c p.1 = false := by
      simp [isManaged, hflat p.1 hfmem]
    exact getattrM_flat hheap3 hflat3
      (specDict_mem (isManaged S c) fields vals [] p.1 p.2 hnd hp hrfS)

